import Mathlib

/-!
Verification of the `short-your-friends` python prototype
(`src/python-prototype/src/orderbook/*.py`, `src/engine/interface.py`,
`server.py`).

The embedding is shallow and executable:

* Python `dict`s are insertion-ordered association lists (`alookup`,
  `aset`, `aerase`), matching CPython semantics: assignment to an
  existing key updates it in place, assignment to a new key appends,
  `del` removes it.
* `heapq` is modelled as a sorted list.  The code only ever uses
  `heap[0]`, `heappush` and `heappop`, whose observable behaviour
  (peek minimum, insert, remove minimum) a sorted list reproduces
  exactly.
* The intrusive doubly linked lists of `linked_list.py` are modelled
  with an arena: `OrderBook.arena` is the list of every `OrderNode`
  ever allocated, a "pointer" is an index into it, and `prev_node` /
  `next_node` are optional indices.  This reproduces Python object
  aliasing faithfully (a node removed from `_orders` can still sit in
  a queue, `OrderList.remove` can be handed a node of a *different*
  list, etc.).
* The `while` loops of `OrderBook.process_order` can diverge on
  corrupted (but reachable) states, so they take a fuel parameter;
  every theorem below is proved for every fuel, hence in particular
  for any fuel large enough to reproduce the Python execution.
* Python `int` is `Int`; `Decimal` money is `ℚ` (the economy only
  adds, subtracts, multiplies, compares, and divides by 100, all of
  which `Decimal` performs exactly).
-/

namespace SYF

/-! ### Association lists (Python `dict`) -/

def alookup {κ α : Type} [DecidableEq κ] : List (κ × α) → κ → Option α
  | [], _ => none
  | (k, v) :: rest, key => if k = key then some v else alookup rest key

def aset {κ α : Type} [DecidableEq κ] : List (κ × α) → κ → α → List (κ × α)
  | [], key, v => [(key, v)]
  | (k, w) :: rest, key, v =>
      if k = key then (key, v) :: rest else (k, w) :: aset rest key v

def aerase {κ α : Type} [DecidableEq κ] : List (κ × α) → κ → List (κ × α)
  | [], _ => []
  | (k, w) :: rest, key => if k = key then rest else (k, w) :: aerase rest key

def akeys {κ α : Type} (l : List (κ × α)) : List κ := l.map Prod.fst

/-! ### `heapq` as a sorted list -/

def heapPush : List Int → Int → List Int
  | [], x => [x]
  | y :: ys, x => if x ≤ y then x :: y :: ys else y :: heapPush ys x

/-! ### `node.py` -/

structure OrderNode where
  order_id : Int
  user_id : Int
  price : Int
  quantity : Int
  timestamp : Nat
  next_node : Option Nat := none
  prev_node : Option Nat := none
deriving Repr, DecidableEq

/-! ### `linked_list.py` -/

structure OrderList where
  head : Option Nat := none
  tail : Option Nat := none
  count : Int := 0
  total_volume : Int := 0
deriving Repr, DecidableEq

/-- `OrderList.append` of `linked_list.py`, threading the arena. -/
def listAppend (arena : List OrderNode) (l : OrderList) (ptr : Nat) :
    List OrderNode × OrderList :=
  match arena.get? ptr with
  | none => (arena, l)
  | some order =>
    let l2 : OrderList :=
      { l with count := l.count + 1, total_volume := l.total_volume + order.quantity }
    match l2.tail with
    | none =>
        (arena.set ptr { order with prev_node := none, next_node := none },
         { l2 with head := some ptr, tail := some ptr })
    | some t =>
        let arena2 :=
          match arena.get? t with
          | some tn => arena.set t { tn with next_node := some ptr }
          | none => arena
        let arena3 :=
          match arena2.get? ptr with
          | some o2 => arena2.set ptr { o2 with prev_node := some t, next_node := none }
          | none => arena2
        (arena3, { l2 with tail := some ptr })

/-- `OrderList.remove` of `linked_list.py`: blind pointer surgery on the
node at `ptr`, exactly as Python performs it (the node need not belong
to this list). -/
def listRemove (arena : List OrderNode) (l : OrderList) (ptr : Nat) :
    List OrderNode × OrderList :=
  match arena.get? ptr with
  | none => (arena, l)
  | some order =>
    let l2 : OrderList :=
      { l with total_volume := l.total_volume - order.quantity, count := l.count - 1 }
    let step1 : List OrderNode × OrderList :=
      match order.prev_node with
      | none => (arena, { l2 with head := order.next_node })
      | some p =>
          (match arena.get? p with
           | some pn => arena.set p { pn with next_node := order.next_node }
           | none => arena, l2)
    let step2 : List OrderNode × OrderList :=
      match order.next_node with
      | none => (step1.1, { step1.2 with tail := order.prev_node })
      | some n =>
          (match step1.1.get? n with
           | some nn => step1.1.set n { nn with prev_node := order.prev_node }
           | none => step1.1, step1.2)
    let arenaFinal : List OrderNode :=
      match step2.1.get? ptr with
      | some o2 => step2.1.set ptr { o2 with next_node := none, prev_node := none }
      | none => step2.1
    (arenaFinal, step2.2)

/-! ### `trade.py`

`Trade` in `trade.py` declares only six fields; every constructor call
in `book.py` additionally passes `buy_user_id` and `sell_user_id`, and
`server.py`, `engine/interface.py` and the tests read those fields.
The structure below embeds the record as it is constructed and consumed
throughout the repository; the discrepancy with the declaration in
`trade.py` is recorded separately by `tradeDataclassFields` and settled
in claim C2. -/

structure Trade where
  buy_order_id : Int
  sell_order_id : Int
  price : Int
  quantity : Int
  maker_order_id : Int
  taker_order_id : Int
  buy_user_id : Int
  sell_user_id : Int
deriving Repr, DecidableEq

/-- The fields declared by the `@dataclass(slots=True) class Trade` in
`trade.py` (lines 4-12), in order. -/
def tradeDataclassFields : List String :=
  ["buy_order_id", "sell_order_id", "price", "quantity",
   "maker_order_id", "taker_order_id"]

/-- The keyword arguments passed to `Trade(...)` in
`OrderBook.process_order` (both sides) and `OrderBook.settle_market`
in `book.py`. -/
def bookTradeCallKwargs : List String :=
  ["buy_order_id", "sell_order_id", "price", "quantity",
   "maker_order_id", "taker_order_id", "buy_user_id", "sell_user_id"]

/-! ### `book.py` -/

structure OrderBook where
  arena : List OrderNode := []
  orders : List (Int × Nat) := []
  bids : List (Int × OrderList) := []
  asks : List (Int × OrderList) := []
  bids_heap : List Int := []
  asks_heap : List Int := []
  positions : List (Int × Int) := []
  active : Bool := true
  clock : Nat := 0
deriving Repr, DecidableEq

def SYSTEM_USER_ID : Int := 0

/-- `OrderBook._add_to_book`. -/
def addToBook (b : OrderBook) (side : String) (price quantity order_id user_id : Int) :
    Except String OrderBook :=
  if !b.active then .error "Market is closed."
  else
    let ptr := b.arena.length
    let node : OrderNode :=
      { order_id := order_id, user_id := user_id, price := price,
        quantity := quantity, timestamp := b.clock }
    let arena := b.arena ++ [node]
    let orders := aset b.orders order_id ptr
    if side = "buy" then
      let createNew := (alookup b.bids price).isNone
      let bids0 := if createNew then aset b.bids price {} else b.bids
      let heap := if createNew then heapPush b.bids_heap (-price) else b.bids_heap
      let q := (alookup bids0 price).getD {}
      let res := listAppend arena q ptr
      .ok { b with arena := res.1, orders := orders,
                   bids := aset bids0 price res.2, bids_heap := heap,
                   clock := b.clock + 1 }
    else if side = "sell" then
      let createNew := (alookup b.asks price).isNone
      let asks0 := if createNew then aset b.asks price {} else b.asks
      let heap := if createNew then heapPush b.asks_heap price else b.asks_heap
      let q := (alookup asks0 price).getD {}
      let res := listAppend arena q ptr
      .ok { b with arena := res.1, orders := orders,
                   asks := aset asks0 price res.2, asks_heap := heap,
                   clock := b.clock + 1 }
    else
      .ok { b with arena := arena, orders := orders, clock := b.clock + 1 }

/-- `OrderBook.add_order` (public wrapper around `_add_to_book`). -/
def addOrder (b : OrderBook) (side : String) (price quantity order_id user_id : Int) :
    Except String OrderBook :=
  addToBook b side price quantity order_id user_id

/-- `OrderBook.cancel_order`: dispatches on price membership, bid side
first, exactly as `book.py` lines 227-253. -/
def cancelOrder (b : OrderBook) (order_id : Int) : OrderBook :=
  match alookup b.orders order_id with
  | none => b
  | some ptr =>
    match b.arena.get? ptr with
    | none => { b with orders := aerase b.orders order_id }
    | some order =>
      let price := order.price
      if (alookup b.bids price).isSome then
        let q := (alookup b.bids price).getD {}
        let res := listRemove b.arena q ptr
        let bids :=
          if res.2.count = 0 then aerase b.bids price else aset b.bids price res.2
        { b with arena := res.1, bids := bids, orders := aerase b.orders order_id }
      else if (alookup b.asks price).isSome then
        let q := (alookup b.asks price).getD {}
        let res := listRemove b.arena q ptr
        let asks :=
          if res.2.count = 0 then aerase b.asks price else aset b.asks price res.2
        { b with arena := res.1, asks := asks, orders := aerase b.orders order_id }
      else
        { b with orders := aerase b.orders order_id }

/-- Inner matching loop of `process_order` for a buy taker: walks the
best-ask queue head to tail (`book.py` lines 75-107).  The unguarded
`del self._orders[maker_order.order_id]` on a full fill is modelled
here as `aerase`, which silently no-ops when the key is absent; CPython
`del` raises `KeyError` there instead (reachable once the duplicate-id
overwrite has left two resting nodes sharing one id).  The in-place
mutations preceding such a crash are covered by this function's partial
(smaller-fuel) executions; the `KeyError` itself is modelled by the
`buyInnerStrict` variant below. -/
def buyInner (fuel : Nat) (arena : List OrderNode) (q : OrderList)
    (orders : List (Int × Nat)) (pos : List (Int × Int))
    (rem order_id user_id askPrice : Int) (acc : List Trade) :
    List OrderNode × OrderList × List (Int × Nat) × List (Int × Int) × Int × List Trade :=
  match fuel with
  | 0 => (arena, q, orders, pos, rem, acc)
  | fuel + 1 =>
    if rem > 0 then
      match q.head with
      | none => (arena, q, orders, pos, rem, acc)
      | some mptr =>
        match arena.get? mptr with
        | none => (arena, q, orders, pos, rem, acc)
        | some maker =>
          let tq := min rem maker.quantity
          let t : Trade :=
            { buy_order_id := order_id, sell_order_id := maker.order_id,
              price := askPrice, quantity := tq,
              maker_order_id := maker.order_id, taker_order_id := order_id,
              buy_user_id := user_id, sell_user_id := maker.user_id }
          let pos1 := aset pos user_id ((alookup pos user_id).getD 0 + tq)
          let pos2 := aset pos1 maker.user_id ((alookup pos1 maker.user_id).getD 0 - tq)
          let rem2 := rem - tq
          let arena2 := arena.set mptr { maker with quantity := maker.quantity - tq }
          let q2 : OrderList := { q with total_volume := q.total_volume - tq }
          if maker.quantity - tq = 0 then
            let res := listRemove arena2 q2 mptr
            buyInner fuel res.1 res.2 (aerase orders maker.order_id) pos2
              rem2 order_id user_id askPrice (acc ++ [t])
          else
            buyInner fuel arena2 q2 orders pos2 rem2 order_id user_id askPrice (acc ++ [t])
    else (arena, q, orders, pos, rem, acc)

/-- Inner matching loop for a sell taker (`book.py` lines 137-167).
As in `buyInner`, the unguarded `del self._orders[...]` of line 167 is
modelled as a silent `aerase`; the `KeyError` CPython raises on a
missing key is modelled by `sellInnerStrict` below. -/
def sellInner (fuel : Nat) (arena : List OrderNode) (q : OrderList)
    (orders : List (Int × Nat)) (pos : List (Int × Int))
    (rem order_id user_id bidPrice : Int) (acc : List Trade) :
    List OrderNode × OrderList × List (Int × Nat) × List (Int × Int) × Int × List Trade :=
  match fuel with
  | 0 => (arena, q, orders, pos, rem, acc)
  | fuel + 1 =>
    if rem > 0 then
      match q.head with
      | none => (arena, q, orders, pos, rem, acc)
      | some mptr =>
        match arena.get? mptr with
        | none => (arena, q, orders, pos, rem, acc)
        | some maker =>
          let tq := min rem maker.quantity
          let t : Trade :=
            { buy_order_id := maker.order_id, sell_order_id := order_id,
              price := bidPrice, quantity := tq,
              maker_order_id := maker.order_id, taker_order_id := order_id,
              buy_user_id := maker.user_id, sell_user_id := user_id }
          let pos1 := aset pos maker.user_id ((alookup pos maker.user_id).getD 0 + tq)
          let pos2 := aset pos1 user_id ((alookup pos1 user_id).getD 0 - tq)
          let rem2 := rem - tq
          let arena2 := arena.set mptr { maker with quantity := maker.quantity - tq }
          let q2 : OrderList := { q with total_volume := q.total_volume - tq }
          if maker.quantity - tq = 0 then
            let res := listRemove arena2 q2 mptr
            sellInner fuel res.1 res.2 (aerase orders maker.order_id) pos2
              rem2 order_id user_id bidPrice (acc ++ [t])
          else
            sellInner fuel arena2 q2 orders pos2 rem2 order_id user_id bidPrice (acc ++ [t])
    else (arena, q, orders, pos, rem, acc)

/-- Outer matching loop of `process_order` for a buy taker
(`book.py` lines 58-112). -/
def buyOuter (fuel : Nat) (b : OrderBook) (price rem order_id user_id : Int)
    (acc : List Trade) : OrderBook × Int × List Trade :=
  match fuel with
  | 0 => (b, rem, acc)
  | fuel + 1 =>
    if rem > 0 then
      match b.asks_heap.head? with
      | none => (b, rem, acc)
      | some bestAsk =>
        if price < bestAsk then (b, rem, acc)
        else if (alookup b.asks bestAsk).isNone then
          buyOuter fuel { b with asks_heap := b.asks_heap.tail } price rem
            order_id user_id acc
        else
          let q := (alookup b.asks bestAsk).getD {}
          let r := buyInner (fuel + 1) b.arena q b.orders b.positions rem
            order_id user_id bestAsk acc
          let b2 : OrderBook :=
            { b with arena := r.1, orders := r.2.2.1, positions := r.2.2.2.1 }
          let b3 : OrderBook :=
            if r.2.1.count = 0 then
              { b2 with asks := aerase b2.asks bestAsk, asks_heap := b2.asks_heap.tail }
            else
              { b2 with asks := aset b2.asks bestAsk r.2.1 }
          buyOuter fuel b3 price r.2.2.2.2.1 order_id user_id r.2.2.2.2.2
    else (b, rem, acc)

/-- Outer matching loop for a sell taker (`book.py` lines 118-171);
bid heap entries are negated prices. -/
def sellOuter (fuel : Nat) (b : OrderBook) (price rem order_id user_id : Int)
    (acc : List Trade) : OrderBook × Int × List Trade :=
  match fuel with
  | 0 => (b, rem, acc)
  | fuel + 1 =>
    if rem > 0 then
      match b.bids_heap.head? with
      | none => (b, rem, acc)
      | some negBid =>
        let bestBid := -negBid
        if price > bestBid then (b, rem, acc)
        else if (alookup b.bids bestBid).isNone then
          sellOuter fuel { b with bids_heap := b.bids_heap.tail } price rem
            order_id user_id acc
        else
          let q := (alookup b.bids bestBid).getD {}
          let r := sellInner (fuel + 1) b.arena q b.orders b.positions rem
            order_id user_id bestBid acc
          let b2 : OrderBook :=
            { b with arena := r.1, orders := r.2.2.1, positions := r.2.2.2.1 }
          let b3 : OrderBook :=
            if r.2.1.count = 0 then
              { b2 with bids := aerase b2.bids bestBid, bids_heap := b2.bids_heap.tail }
            else
              { b2 with bids := aset b2.bids bestBid r.2.1 }
          sellOuter fuel b3 price r.2.2.2.2.1 order_id user_id r.2.2.2.2.2
    else (b, rem, acc)

/-- `OrderBook.process_order` (`book.py` lines 35-177).  Raising
`ValueError` is modelled by `Except.error`; `fuel` bounds the loop
iterations (the Python loops can diverge on corrupted states). -/
def processOrder (fuel : Nat) (b : OrderBook) (side : String)
    (price quantity order_id user_id : Int) :
    Except String (OrderBook × List Trade) :=
  if !b.active then .error "Market is closed."
  else
    let r :=
      if side = "buy" then buyOuter fuel b price quantity order_id user_id []
      else if side = "sell" then sellOuter fuel b price quantity order_id user_id []
      else (b, quantity, ([] : List Trade))
    if r.2.1 > 0 then
      match addToBook r.1 side price r.2.1 order_id user_id with
      | .ok b2 => .ok (b2, r.2.2)
      | .error e => .error e
    else .ok (r.1, r.2.2)

/-- Del-faithful variant of `buyInner`: identical except that the
`del self._orders[maker_order.order_id]` of `book.py` line 107 follows
CPython `del` semantics exactly — it raises `KeyError` when the id is
not a key of `_orders` (as happens when a sweep fully fills the second
of two resting nodes left sharing one id by the duplicate overwrite). -/
def buyInnerStrict (fuel : Nat) (arena : List OrderNode) (q : OrderList)
    (orders : List (Int × Nat)) (pos : List (Int × Int))
    (rem order_id user_id askPrice : Int) (acc : List Trade) :
    Except String
      (List OrderNode × OrderList × List (Int × Nat) × List (Int × Int) ×
        Int × List Trade) :=
  match fuel with
  | 0 => .ok (arena, q, orders, pos, rem, acc)
  | fuel + 1 =>
    if rem > 0 then
      match q.head with
      | none => .ok (arena, q, orders, pos, rem, acc)
      | some mptr =>
        match arena.get? mptr with
        | none => .ok (arena, q, orders, pos, rem, acc)
        | some maker =>
          let tq := min rem maker.quantity
          let t : Trade :=
            { buy_order_id := order_id, sell_order_id := maker.order_id,
              price := askPrice, quantity := tq,
              maker_order_id := maker.order_id, taker_order_id := order_id,
              buy_user_id := user_id, sell_user_id := maker.user_id }
          let pos1 := aset pos user_id ((alookup pos user_id).getD 0 + tq)
          let pos2 := aset pos1 maker.user_id ((alookup pos1 maker.user_id).getD 0 - tq)
          let rem2 := rem - tq
          let arena2 := arena.set mptr { maker with quantity := maker.quantity - tq }
          let q2 : OrderList := { q with total_volume := q.total_volume - tq }
          if maker.quantity - tq = 0 then
            let res := listRemove arena2 q2 mptr
            match alookup orders maker.order_id with
            | none => .error "KeyError"
            | some _ =>
              buyInnerStrict fuel res.1 res.2 (aerase orders maker.order_id) pos2
                rem2 order_id user_id askPrice (acc ++ [t])
          else
            buyInnerStrict fuel arena2 q2 orders pos2 rem2 order_id user_id askPrice
              (acc ++ [t])
    else .ok (arena, q, orders, pos, rem, acc)

/-- Del-faithful variant of `sellInner` (`book.py` line 167): the
missing-key `del self._orders[...]` raises `KeyError`. -/
def sellInnerStrict (fuel : Nat) (arena : List OrderNode) (q : OrderList)
    (orders : List (Int × Nat)) (pos : List (Int × Int))
    (rem order_id user_id bidPrice : Int) (acc : List Trade) :
    Except String
      (List OrderNode × OrderList × List (Int × Nat) × List (Int × Int) ×
        Int × List Trade) :=
  match fuel with
  | 0 => .ok (arena, q, orders, pos, rem, acc)
  | fuel + 1 =>
    if rem > 0 then
      match q.head with
      | none => .ok (arena, q, orders, pos, rem, acc)
      | some mptr =>
        match arena.get? mptr with
        | none => .ok (arena, q, orders, pos, rem, acc)
        | some maker =>
          let tq := min rem maker.quantity
          let t : Trade :=
            { buy_order_id := maker.order_id, sell_order_id := order_id,
              price := bidPrice, quantity := tq,
              maker_order_id := maker.order_id, taker_order_id := order_id,
              buy_user_id := maker.user_id, sell_user_id := user_id }
          let pos1 := aset pos maker.user_id ((alookup pos maker.user_id).getD 0 + tq)
          let pos2 := aset pos1 user_id ((alookup pos1 user_id).getD 0 - tq)
          let rem2 := rem - tq
          let arena2 := arena.set mptr { maker with quantity := maker.quantity - tq }
          let q2 : OrderList := { q with total_volume := q.total_volume - tq }
          if maker.quantity - tq = 0 then
            let res := listRemove arena2 q2 mptr
            match alookup orders maker.order_id with
            | none => .error "KeyError"
            | some _ =>
              sellInnerStrict fuel res.1 res.2 (aerase orders maker.order_id) pos2
                rem2 order_id user_id bidPrice (acc ++ [t])
          else
            sellInnerStrict fuel arena2 q2 orders pos2 rem2 order_id user_id bidPrice
              (acc ++ [t])
    else .ok (arena, q, orders, pos, rem, acc)

/-- Outer buy loop over `buyInnerStrict`: a raised `KeyError`
propagates out of the loop, as a Python exception does. -/
def buyOuterStrict (fuel : Nat) (b : OrderBook) (price rem order_id user_id : Int)
    (acc : List Trade) : Except String (OrderBook × Int × List Trade) :=
  match fuel with
  | 0 => .ok (b, rem, acc)
  | fuel + 1 =>
    if rem > 0 then
      match b.asks_heap.head? with
      | none => .ok (b, rem, acc)
      | some bestAsk =>
        if price < bestAsk then .ok (b, rem, acc)
        else if (alookup b.asks bestAsk).isNone then
          buyOuterStrict fuel { b with asks_heap := b.asks_heap.tail } price rem
            order_id user_id acc
        else
          let q := (alookup b.asks bestAsk).getD {}
          match buyInnerStrict (fuel + 1) b.arena q b.orders b.positions rem
            order_id user_id bestAsk acc with
          | .error e => .error e
          | .ok r =>
            let b2 : OrderBook :=
              { b with arena := r.1, orders := r.2.2.1, positions := r.2.2.2.1 }
            let b3 : OrderBook :=
              if r.2.1.count = 0 then
                { b2 with asks := aerase b2.asks bestAsk, asks_heap := b2.asks_heap.tail }
              else
                { b2 with asks := aset b2.asks bestAsk r.2.1 }
            buyOuterStrict fuel b3 price r.2.2.2.2.1 order_id user_id r.2.2.2.2.2
    else .ok (b, rem, acc)

/-- Outer sell loop over `sellInnerStrict`. -/
def sellOuterStrict (fuel : Nat) (b : OrderBook) (price rem order_id user_id : Int)
    (acc : List Trade) : Except String (OrderBook × Int × List Trade) :=
  match fuel with
  | 0 => .ok (b, rem, acc)
  | fuel + 1 =>
    if rem > 0 then
      match b.bids_heap.head? with
      | none => .ok (b, rem, acc)
      | some negBid =>
        let bestBid := -negBid
        if price > bestBid then .ok (b, rem, acc)
        else if (alookup b.bids bestBid).isNone then
          sellOuterStrict fuel { b with bids_heap := b.bids_heap.tail } price rem
            order_id user_id acc
        else
          let q := (alookup b.bids bestBid).getD {}
          match sellInnerStrict (fuel + 1) b.arena q b.orders b.positions rem
            order_id user_id bestBid acc with
          | .error e => .error e
          | .ok r =>
            let b2 : OrderBook :=
              { b with arena := r.1, orders := r.2.2.1, positions := r.2.2.2.1 }
            let b3 : OrderBook :=
              if r.2.1.count = 0 then
                { b2 with bids := aerase b2.bids bestBid, bids_heap := b2.bids_heap.tail }
              else
                { b2 with bids := aset b2.bids bestBid r.2.1 }
            sellOuterStrict fuel b3 price r.2.2.2.2.1 order_id user_id r.2.2.2.2.2
    else .ok (b, rem, acc)

/-- `OrderBook.process_order` over the del-faithful loops: identical to
`processOrder` except that a `KeyError` raised at `book.py` line 107 or
167 aborts the call (no trade list is returned, the remainder never
rests). -/
def processOrderStrict (fuel : Nat) (b : OrderBook) (side : String)
    (price quantity order_id user_id : Int) :
    Except String (OrderBook × List Trade) :=
  if !b.active then .error "Market is closed."
  else
    match
      (if side = "buy" then buyOuterStrict fuel b price quantity order_id user_id []
       else if side = "sell" then sellOuterStrict fuel b price quantity order_id user_id []
       else .ok (b, quantity, ([] : List Trade))) with
    | .error e => .error e
    | .ok r =>
      if r.2.1 > 0 then
        match addToBook r.1 side price r.2.1 order_id user_id with
        | .ok b2 => .ok (b2, r.2.2)
        | .error e => .error e
      else .ok (r.1, r.2.2)

/-- `OrderBook.get_best_bid` scanning loop (lazy heap cleanup). -/
def bestBidLoop (bids : List (Int × OrderList)) : List Int → Option Int × List Int
  | [] => (none, [])
  | x :: rest =>
    if (alookup bids (-x)).isSome then (some (-x), x :: rest)
    else bestBidLoop bids rest

/-- `OrderBook.get_best_ask` scanning loop. -/
def bestAskLoop (asks : List (Int × OrderList)) : List Int → Option Int × List Int
  | [] => (none, [])
  | x :: rest =>
    if (alookup asks x).isSome then (some x, x :: rest)
    else bestAskLoop asks rest

/-- `OrderBook.get_best_bid`: returns the price and the book with the
stale heap entries popped. -/
def getBestBid (b : OrderBook) : Option Int × OrderBook :=
  let r := bestBidLoop b.bids b.bids_heap
  (r.1, { b with bids_heap := r.2 })

/-- `OrderBook.get_best_ask`. -/
def getBestAsk (b : OrderBook) : Option Int × OrderBook :=
  let r := bestAskLoop b.asks b.asks_heap
  (r.1, { b with asks_heap := r.2 })

/-- The synthetic settlement trade built for one non-zero position
(`book.py` lines 334-359). -/
def settleTradeFor (terminal user_id net : Int) : Trade :=
  if net > 0 then
    if terminal = 1 then
      { buy_order_id := -1, sell_order_id := -1, price := terminal, quantity := net,
        maker_order_id := -1, taker_order_id := -1,
        buy_user_id := user_id, sell_user_id := SYSTEM_USER_ID }
    else
      { buy_order_id := -1, sell_order_id := -1, price := terminal, quantity := net,
        maker_order_id := -1, taker_order_id := -1,
        buy_user_id := SYSTEM_USER_ID, sell_user_id := user_id }
  else
    if terminal = 1 then
      { buy_order_id := -1, sell_order_id := -1, price := terminal, quantity := -net,
        maker_order_id := -1, taker_order_id := -1,
        buy_user_id := SYSTEM_USER_ID, sell_user_id := user_id }
    else
      { buy_order_id := -1, sell_order_id := -1, price := terminal, quantity := -net,
        maker_order_id := -1, taker_order_id := -1,
        buy_user_id := user_id, sell_user_id := SYSTEM_USER_ID }

/-- The position-settlement iteration of `settle_market`: zeroes every
non-zero position in dict order and collects the synthetic trades. -/
def settlePositions (terminal : Int) :
    List (Int × Int) → List (Int × Int) × List Trade
  | [] => ([], [])
  | (uid, net) :: rest =>
    let r := settlePositions terminal rest
    if net = 0 then ((uid, net) :: r.1, r.2)
    else ((uid, 0) :: r.1, settleTradeFor terminal uid net :: r.2)

/-- `OrderBook.settle_market` (`book.py` lines 314-363). -/
def settleMarket (b : OrderBook) (terminal : Int) : OrderBook × List Trade :=
  let b1 : OrderBook := { b with active := false }
  let ids := b1.orders.map Prod.fst
  let b2 := ids.foldl cancelOrder b1
  let r := settlePositions terminal b2.positions
  ({ b2 with positions := r.1 }, r.2)

/-! ### Book operation sequences (reachability) -/

/-- One public operation on a single `OrderBook`.  `process` carries a
fuel bound for its loops; quantifying over every fuel covers every
(possibly partial) Python execution. -/
inductive BookOp : Type
  | process (fuel : Nat) (side : String) (price quantity order_id user_id : Int)
  | add (side : String) (price quantity order_id user_id : Int)
  | cancel (order_id : Int)
  | settle (terminal : Int)
deriving Repr

/-- Apply one operation; a raised `ValueError` leaves the book as it
was (`process_order` and `_add_to_book` raise before mutating). -/
def applyOp (b : OrderBook) : BookOp → OrderBook
  | .process fuel side price qty oid uid =>
      match processOrder fuel b side price qty oid uid with
      | .ok r => r.1
      | .error _ => b
  | .add side price qty oid uid =>
      match addOrder b side price qty oid uid with
      | .ok b2 => b2
      | .error _ => b
  | .cancel oid => cancelOrder b oid
  | .settle t => (settleMarket b t).1

/-- Run a sequence of operations from the empty book. -/
def runOps (ops : List BookOp) : OrderBook :=
  ops.foldl applyOp {}

/-- A book state reachable from the empty book. -/
def Reachable (b : OrderBook) : Prop := ∃ ops : List BookOp, runOps ops = b

/-! ### `deprecated_engine.py` -/

structure OrderMetadata where
  market_id : Int × Int
  side : String
  price : Int
  quantity : Int
  user_id : Int
deriving Repr, DecidableEq

structure MatchingEngine where
  markets : List ((Int × Int) × OrderBook) := []
  market_names : List ((Int × Int) × String) := []
  order_registry : List (Int × OrderMetadata) := []
deriving Repr, DecidableEq

/-- `MatchingEngine.get_or_create_market`. -/
def getOrCreateMarket (e : MatchingEngine) (mid : Int × Int) :
    MatchingEngine × OrderBook :=
  match alookup e.markets mid with
  | some b => (e, b)
  | none => ({ e with markets := aset e.markets mid {} }, {})

/-- `MatchingEngine.create_market`. -/
def createMarket (e : MatchingEngine) (mid : Int × Int) (name : String) :
    MatchingEngine :=
  let e1 := (getOrCreateMarket e mid).1
  { e1 with market_names := aset e1.market_names mid name }

/-- Registry synchronisation for the makers hit by a list of trades
(`deprecated_engine.py` lines 64-78). -/
def syncMakers (book : OrderBook) (reg : List (Int × OrderMetadata)) :
    List Trade → List (Int × OrderMetadata)
  | [] => reg
  | t :: rest =>
    let reg2 :=
      match alookup book.orders t.maker_order_id with
      | none => aerase reg t.maker_order_id
      | some ptr =>
        match alookup reg t.maker_order_id with
        | none => reg
        | some meta =>
          match book.arena.get? ptr with
          | some node => aset reg t.maker_order_id { meta with quantity := node.quantity }
          | none => reg
    syncMakers book reg2 rest

/-- `MatchingEngine.process_order` (`deprecated_engine.py` lines 48-93):
match in the book, then sync the registry for makers and taker. -/
def engineProcessOrder (fuel : Nat) (e : MatchingEngine) (mid : Int × Int)
    (side : String) (price quantity order_id user_id : Int) :
    Except String (MatchingEngine × List Trade) :=
  let g := getOrCreateMarket e mid
  match processOrder fuel g.2 side price quantity order_id user_id with
  | .error err => .error err
  | .ok r =>
    let book := r.1
    let reg1 := syncMakers book g.1.order_registry r.2
    let reg2 :=
      match alookup book.orders order_id with
      | none => reg1
      | some ptr =>
        match book.arena.get? ptr with
        | some node =>
            aset reg1 order_id
              { market_id := mid, side := side, price := price,
                quantity := node.quantity, user_id := user_id }
        | none => reg1
    .ok ({ g.1 with markets := aset g.1.markets mid book, order_registry := reg2 }, r.2)

/-- `MatchingEngine.cancel_order` (`deprecated_engine.py` lines 95-119). -/
def engineCancelOrder (e : MatchingEngine) (order_id : Int) :
    MatchingEngine × Option OrderMetadata :=
  match alookup e.order_registry order_id with
  | none => (e, none)
  | some meta =>
    let e2 :=
      match alookup e.markets meta.market_id with
      | some book =>
          { e with markets := aset e.markets meta.market_id (cancelOrder book order_id) }
      | none => e
    ({ e2 with order_registry := aerase e2.order_registry order_id }, some meta)

/-- `MatchingEngine.settle_markets_for_user` (`deprecated_engine.py`
lines 121-139): settles every market of the target user; the order
registry is left untouched. -/
def settleMarketsForUser (e : MatchingEngine) (target actual : Int) :
    MatchingEngine × List Trade :=
  (e.markets.map Prod.fst).foldl
    (fun acc mid =>
      if mid.1 = target then
        let terminal : Int := if actual ≥ mid.2 then 1 else 0
        let r := settleMarket ((alookup acc.1.markets mid).getD {}) terminal
        ({ acc.1 with markets := aset acc.1.markets mid r.1 }, acc.2 ++ r.2)
      else acc)
    (e, [])

/-- The registry-integrity condition checked per market by
`SystemAuditor._audit_registry` (`audit.py` lines 55-68): total resting
quantity in the book equals the total registered quantity for that
market. -/
def auditRegistryOkFor (e : MatchingEngine) (mid : Int × Int) : Prop :=
  ((alookup e.markets mid).getD {}).orders.foldl
      (fun s kv =>
        s + (match ((alookup e.markets mid).getD {}).arena.get? kv.2 with
             | some n => n.quantity
             | none => 0)) 0
    = (e.order_registry.filter (fun kv => kv.2.market_id = mid)).foldl
        (fun s kv => s + kv.2.quantity) 0

instance (e : MatchingEngine) (mid : Int × Int) :
    Decidable (auditRegistryOkFor e mid) := by
  unfold auditRegistryOkFor; infer_instance

/-! ### `economy.py`

Monetary amounts are exact decimals in Python; they are embedded as
`ℚ`.  The only division performed is by `100` (cents to dollars) and
the weighted-average entry price, neither of which feeds back into the
balance arithmetic of the claims below. -/

structure EconPosition where
  quantity : Int := 0
  average_entry_price : ℚ := 0
deriving Repr, DecidableEq

structure Account where
  user_id : String
  balance_available : ℚ := 0
  balance_locked : ℚ := 0
  portfolio : List (String × EconPosition) := []
deriving Repr, DecidableEq

structure EconomyManager where
  accounts : List (String × Account) := []
deriving Repr, DecidableEq

/-- `EconomyManager.get_account`: lazily creates the account. -/
def getAccount (m : EconomyManager) (uid : String) : EconomyManager × Account :=
  match alookup m.accounts uid with
  | some a => (m, a)
  | none =>
      let a : Account := { user_id := uid }
      ({ accounts := aset m.accounts uid a }, a)

def setAccount (m : EconomyManager) (uid : String) (a : Account) : EconomyManager :=
  { accounts := aset m.accounts uid a }

/-- `EconomyManager.deposit`. -/
def deposit (m : EconomyManager) (uid : String) (amount : ℚ) : EconomyManager :=
  let g := getAccount m uid
  setAccount g.1 uid
    { g.2 with balance_available := g.2.balance_available + amount }

/-- `EconomyManager.attempt_order_lock` (`economy.py` lines 89-102). -/
def attemptOrderLock (m : EconomyManager) (uid : String) (price : ℚ) (quantity : Int) :
    EconomyManager × Bool :=
  let g := getAccount m uid
  let cost := price * (quantity : ℚ)
  if g.2.balance_available ≥ cost then
    (setAccount g.1 uid
      { g.2 with balance_available := g.2.balance_available - cost,
                 balance_locked := g.2.balance_locked + cost }, true)
  else (g.1, false)

/-- `EconomyManager.release_order_lock` (`economy.py` lines 104-115). -/
def releaseOrderLock (m : EconomyManager) (uid : String) (price : ℚ) (quantity : Int) :
    EconomyManager :=
  let g := getAccount m uid
  let cost := price * (quantity : ℚ)
  if g.2.balance_locked ≥ cost then
    setAccount g.1 uid
      { g.2 with balance_locked := g.2.balance_locked - cost,
                 balance_available := g.2.balance_available + cost }
  else g.1

/-- `EconomyManager._update_position` (`economy.py` lines 117-171),
including the fall-through from "Scenario 1" into the later branches. -/
def updatePosition (m : EconomyManager) (uid market : String)
    (change_qty : Int) (price : ℚ) : EconomyManager :=
  let g := getAccount m uid
  let a := g.2
  let port0 :=
    if (alookup a.portfolio market).isNone
    then aset a.portfolio market {} else a.portfolio
  let pos := (alookup port0 market).getD {}
  let cq := pos.quantity
  let ca := pos.average_entry_price
  let nq := cq + change_qty
  let pos1 := if nq = 0 then { pos with quantity := 0, average_entry_price := 0 } else pos
  let pos2 : EconPosition :=
    if cq = 0 then { pos1 with quantity := nq, average_entry_price := price }
    else if (cq > 0 ∧ change_qty > 0) ∨ (cq < 0 ∧ change_qty < 0) then
      { pos1 with
        average_entry_price :=
          ((cq.natAbs : ℚ) * ca + (change_qty.natAbs : ℚ) * price) / (nq.natAbs : ℚ),
        quantity := nq }
    else if nq.natAbs < cq.natAbs then { pos1 with quantity := nq }
    else { pos1 with quantity := nq, average_entry_price := price }
  setAccount g.1 uid { a with portfolio := aset port0 market pos2 }

/-- `EconomyManager.confirm_trade` (`economy.py` lines 173-211): buyer
pays from locked (clamped at zero with a critical log), seller receives
into available, then both portfolios are updated. -/
def confirmTrade (m : EconomyManager) (buyer_id seller_id market_id : String)
    (price : ℚ) (quantity : Int) : EconomyManager :=
  let cost := price * (quantity : ℚ)
  let g := getAccount m buyer_id
  let buyerLocked := g.2.balance_locked - cost
  let buyer := { g.2 with balance_locked := if buyerLocked < 0 then 0 else buyerLocked }
  let m1 := setAccount g.1 buyer_id buyer
  let g2 := getAccount m1 seller_id
  let m2 := setAccount g2.1 seller_id
    { g2.2 with balance_available := g2.2.balance_available + cost }
  let m3 := updatePosition m2 buyer_id market_id quantity price
  updatePosition m3 seller_id market_id (-quantity) price

/-- Total cash (available + locked) of one user; accounts are created
lazily, so a missing account counts as zero. -/
def userCash (m : EconomyManager) (uid : String) : ℚ :=
  match alookup m.accounts uid with
  | some a => a.balance_available + a.balance_locked
  | none => 0

/-- The account `get_account` yields for a user (fresh and zeroed when
the user is unknown). -/
def acctOf (m : EconomyManager) (uid : String) : Account := (getAccount m uid).2

/-- C9 witness scenario: one account with $3 available and $1 locked. -/
def c9M : EconomyManager :=
  { accounts := [("u", { user_id := "u", balance_available := 3, balance_locked := 1 })] }

/-! ### The settle workflow (`server.py` lines 432-479, identically
`engine/interface.py` lines 377-418): settle each market of the target
user and route every synthetic trade through `confirm_trade` with the
terminal price converted from cents to dollars. -/

/-- Route a list of trades through the economy
(`server.py` lines 460-470). -/
def confirmTrades (eco : EconomyManager) (toExternal : Int → String)
    (marketStr : String) (trades : List Trade) : EconomyManager :=
  trades.foldl
    (fun eco t =>
      confirmTrade eco (toExternal t.buy_user_id) (toExternal t.sell_user_id)
        marketStr ((t.price : ℚ) / 100) t.quantity)
    eco

/-! ### Invariants of reachable book states -/

/-- Sum of all net positions of a book. -/
def psum (pos : List (Int × Int)) : Int := (pos.map Prod.snd).sum

/-- The fields of a node that no book operation ever mutates in place
(only `quantity` and the two links are reassigned on live nodes). -/
def nodeKey (n : OrderNode) : Int × Int × Int := (n.order_id, n.user_id, n.price)

/-- Two arenas describing the same allocations: every pointer resolves
to nodes with identical id, user and price. -/
def ArenaSim (a b : List OrderNode) : Prop :=
  ∀ i : Nat, (a.get? i).map nodeKey = (b.get? i).map nodeKey

/-- Neighbour links never cross price levels: the node a `next_node` or
`prev_node` pointer designates exists and carries the same price. -/
def LinkInv (arena : List OrderNode) : Prop :=
  ∀ i n, arena.get? i = some n →
    (∀ j, n.next_node = some j → ∃ m, arena.get? j = some m ∧ m.price = n.price) ∧
    (∀ j, n.prev_node = some j → ∃ m, arena.get? j = some m ∧ m.price = n.price)

/-- The head and tail of a queue keyed at price `p` designate existing
nodes of price `p`. -/
def QOk (arena : List OrderNode) (q : OrderList) (p : Int) : Prop :=
  (∀ h, q.head = some h → ∃ m, arena.get? h = some m ∧ m.price = p) ∧
  (∀ h, q.tail = some h → ∃ m, arena.get? h = some m ∧ m.price = p)

/-- Every price level of a side map is head/tail coherent. -/
def LevelsOk (arena : List OrderNode) (levels : List (Int × OrderList)) : Prop :=
  ∀ p q, (p, q) ∈ levels → QOk arena q p

/-- The lazy-deletion-heap invariant of reachable book states: every
live price level has its (sign-adjusted) price somewhere in the heap,
the sorted-list heap model is sorted, and the side maps carry no
duplicate keys. -/
structure HeapInv (b : OrderBook) : Prop where
  bidsMem : ∀ p, p ∈ akeys b.bids → -p ∈ b.bids_heap
  asksMem : ∀ p, p ∈ akeys b.asks → p ∈ b.asks_heap
  bidsSorted : b.bids_heap.Sorted (· ≤ ·)
  asksSorted : b.asks_heap.Sorted (· ≤ ·)
  bidsNodup : (akeys b.bids).Nodup
  asksNodup : (akeys b.asks).Nodup

/-- The linked-list invariant of reachable book states: pointer links
never leave a price level, and every level's head/tail designates a
node of its price. -/
structure ArenaInv (b : OrderBook) : Prop where
  link : LinkInv b.arena
  bidsOk : LevelsOk b.arena b.bids
  asksOk : LevelsOk b.arena b.asks

/-- A trade's price coincides with a node of the pre-state arena that
carries the trade's maker order id: the maker's limit price. -/
def MakerWitness (b : OrderBook) (t : Trade) : Prop :=
  ∃ i n, b.arena.get? i = some n ∧ n.order_id = t.maker_order_id ∧ n.price = t.price

/-! ### Concrete scenarios used by counterexamples and witnesses -/

def exBook (e : Except String OrderBook) : OrderBook := e.toOption.getD {}

def exRun (e : Except String (OrderBook × List Trade)) : OrderBook × List Trade :=
  e.toOption.getD ({}, [])

def exEng (e : Except String (MatchingEngine × List Trade)) :
    MatchingEngine × List Trade :=
  e.toOption.getD ({}, [])

/-- C3 scenario: a sell order 10@100 rests as order id 1. -/
def c3b1 : OrderBook := (exRun (processOrder 50 {} "sell" 100 10 1 1)).1

/-- C3 scenario: the same order id 1 is submitted again (sell 5@200). -/
def c3b2 : OrderBook := (exRun (processOrder 50 c3b1 "sell" 200 5 1 2)).1

/-- C10 scenario: a resting bid 10@100 (id 1) and a resting ask 5@100
(id 2) coexist, as `add_order` / `load_state` allow. -/
def c10b : OrderBook := exBook (addOrder (exBook (addOrder {} "buy" 100 10 1 1)) "sell" 100 5 2 2)

/-- C1 user-id translation used by the settle workflow
(`UserIdMapper.to_external`): 0 is SYSTEM, 1 is alice, 2 is bob. -/
def c1ToExt : Int → String :=
  fun i => if i = 0 then "system" else if i = 1 then "alice" else "bob"

/-- C1 scenario: market (1,60); alice places sell 10@50¢ (order 1). -/
def c1Eng1 : MatchingEngine :=
  (exEng (engineProcessOrder 50 (createMarket {} (1, 60) "M") (1, 60) "sell" 50 10 1 1)).1

/-- C1 scenario: bob's buy 10@50¢ crosses; one trade at 50¢ for 10,
leaving book positions bob +10, alice −10. -/
def c1Step2 : MatchingEngine × List Trade :=
  exEng (engineProcessOrder 50 c1Eng1 (1, 60) "buy" 50 10 2 2)

/-- C1 scenario: the economy immediately before settlement, exactly as
the live flow leaves it (alice deposited $10 and sold 10 contracts at
50¢: $15 available, short 10; bob deposited $10, locked and spent $5
on the buy: $5 available, long 10). -/
def c1EcoPre : EconomyManager :=
  { accounts :=
    [("alice", { user_id := "alice", balance_available := 15,
                 portfolio := [("alice,60",
                   { quantity := -10, average_entry_price := 1 / 2 })] }),
     ("bob", { user_id := "bob", balance_available := 5,
               portfolio := [("alice,60",
                 { quantity := 10, average_entry_price := 1 / 2 })] })] }

/-- C1 scenario: the oracle reports 120 ≥ 60, terminal price 1; the
engine settles every market of target user 1. -/
def c1Settled : MatchingEngine × List Trade := settleMarketsForUser c1Step2.1 1 120

/-- C1 scenario: every synthetic settlement trade is routed through
`confirm_trade` (settle workflow of `server.py` / `interface.py`). -/
def c1EcoPost : EconomyManager := confirmTrades c1EcoPre c1ToExt "alice,60" c1Settled.2

/-- C8 scenario: market (1,480); order 1 (sell 10@60) rests, so the
registry holds it. -/
def c8Eng1 : MatchingEngine :=
  (exEng (engineProcessOrder 50 (createMarket {} (1, 480) "T") (1, 480) "sell" 60 10 1 1)).1

/-- C8 scenario: settle every market of target user 1. -/
def c8Post : MatchingEngine × List Trade := settleMarketsForUser c8Eng1 1 500

/-- C5 scenario: a sell order 10@100 (id 1, user 1) rests; the book is
reachable by a single `process_order` operation. -/
def c5ops : List BookOp := [.process 50 "sell" 100 10 1 1]

def c5b : OrderBook := runOps c5ops

/-- C5 scenario: a buy taker with limit 120 lifts the resting ask; the
trade prints at the maker's 100, not the taker's 120. -/
def c5res : OrderBook × List Trade :=
  (processOrder 50 c5b "buy" 120 10 2 2).toOption.getD (c5b, [])

/-! ### Association list lemmas -/

theorem alookup_aset_self {κ α : Type} [DecidableEq κ] (l : List (κ × α)) (k : κ) (v : α) :
    alookup (aset l k v) k = some v := by
  induction l with
  | nil => simp [aset, alookup]
  | cons hd tl ih =>
    by_cases h : hd.1 = k
    · simp only [aset, h, if_pos rfl]
      simp [alookup]
    · obtain ⟨k0, v0⟩ := hd
      simp only at h
      simp [aset, alookup, h, ih]

theorem alookup_aset_ne {κ α : Type} [DecidableEq κ] (l : List (κ × α)) (k k' : κ) (v : α)
    (h : k' ≠ k) : alookup (aset l k v) k' = alookup l k' := by
  induction l with
  | nil => simp [aset, alookup, Ne.symm h]
  | cons hd tl ih =>
    obtain ⟨k0, v0⟩ := hd
    by_cases hk : k0 = k
    · subst hk
      simp [aset, alookup, Ne.symm h]
    · simp only [aset, if_neg hk, alookup]
      by_cases hk' : k0 = k'
      · simp [hk']
      · simp [hk', ih]

theorem mem_akeys_of_alookup {κ α : Type} [DecidableEq κ] (l : List (κ × α)) (k : κ) (v : α)
    (h : alookup l k = some v) : k ∈ akeys l := by
  induction l with
  | nil => simp [alookup] at h
  | cons hd tl ih =>
    obtain ⟨k0, v0⟩ := hd
    by_cases hk : k0 = k
    · simp [akeys, hk]
    · simp only [alookup, if_neg hk] at h
      simp only [akeys, List.map_cons, List.mem_cons]
      exact Or.inr (ih h)

theorem alookup_isNone_not_mem {κ α : Type} [DecidableEq κ] (l : List (κ × α)) (k : κ)
    (h : alookup l k = none) : k ∉ akeys l := by
  intro hmem
  rcases List.mem_map.mp hmem with ⟨kv, hkv, hfst⟩
  induction l with
  | nil => simp at hkv
  | cons hd tl ih =>
    obtain ⟨k0, v0⟩ := hd
    by_cases hk : k0 = k
    · simp [alookup, hk] at h
    · simp only [alookup, if_neg hk] at h
      rcases List.mem_cons.mp hkv with h1 | h1
      · subst h1; exact hk hfst
      · exact ih h (List.mem_map.mpr ⟨kv, h1, hfst⟩) h1

theorem alookup_aerase_self {κ α : Type} [DecidableEq κ] (l : List (κ × α)) (k : κ)
    (h : (akeys l).Nodup) : alookup (aerase l k) k = none := by
  induction l with
  | nil => simp [aerase, alookup]
  | cons hd tl ih =>
    obtain ⟨k0, v0⟩ := hd
    simp only [akeys, List.map_cons, List.nodup_cons] at h
    by_cases hk : k0 = k
    · subst hk
      simp only [aerase, if_pos rfl]
      cases hlk : alookup tl k0 with
      | none => exact hlk
      | some w => exact absurd (mem_akeys_of_alookup tl k0 w hlk) h.1
    · simp [aerase, alookup, hk, ih h.2]

theorem akeys_aset_of_mem {κ α : Type} [DecidableEq κ] (l : List (κ × α)) (k : κ) (v : α)
    (h : k ∈ akeys l) : akeys (aset l k v) = akeys l := by
  induction l with
  | nil => simp [akeys] at h
  | cons hd tl ih =>
    obtain ⟨k0, v0⟩ := hd
    by_cases hk : k0 = k
    · simp [aset, hk, akeys]
    · have hmem : k ∈ akeys tl := by
        simp only [akeys, List.map_cons, List.mem_cons] at h
        rcases h with h1 | h1
        · exact absurd h1.symm hk
        · simpa [akeys] using h1
      have ih2 := ih hmem
      simp only [aset, if_neg hk, akeys, List.map_cons] at ih2 ⊢
      rw [ih2]

theorem akeys_aset_of_not_mem {κ α : Type} [DecidableEq κ] (l : List (κ × α)) (k : κ) (v : α)
    (h : k ∉ akeys l) : akeys (aset l k v) = akeys l ++ [k] := by
  induction l with
  | nil => simp [aset, akeys]
  | cons hd tl ih =>
    obtain ⟨k0, v0⟩ := hd
    have h1 : ¬ k = k0 := by
      intro hh; exact h (by simp [akeys, hh])
    have h2 : k ∉ akeys tl := by
      intro hh
      refine h ?_
      simp only [akeys, List.map_cons, List.mem_cons]
      exact Or.inr (by simpa [akeys] using hh)
    have h0 : ¬ k0 = k := fun hh => h1 hh.symm
    have ih2 := ih h2
    simp only [aset, if_neg h0, akeys, List.map_cons, List.cons_append] at ih2 ⊢
    rw [ih2]

theorem akeys_aerase_subset {κ α : Type} [DecidableEq κ] (l : List (κ × α)) (k : κ) :
    akeys (aerase l k) ⊆ akeys l := by
  induction l with
  | nil => simp [aerase]
  | cons hd tl ih =>
    obtain ⟨k0, v0⟩ := hd
    by_cases hk : k0 = k
    · simp only [aerase, if_pos hk, akeys, List.map_cons]
      exact List.subset_cons_of_subset _ (List.Subset.refl _)
    · simp only [aerase, if_neg hk, akeys, List.map_cons]
      exact List.cons_subset_cons _ ih

theorem akeys_aerase_nodup {κ α : Type} [DecidableEq κ] (l : List (κ × α)) (k : κ)
    (h : (akeys l).Nodup) : (akeys (aerase l k)).Nodup := by
  induction l with
  | nil => exact h
  | cons hd tl ih =>
    obtain ⟨k0, v0⟩ := hd
    simp only [akeys, List.map_cons, List.nodup_cons] at h
    by_cases hk : k0 = k
    · simpa [aerase, hk, akeys] using h.2
    · simp only [aerase, if_neg hk, akeys, List.map_cons, List.nodup_cons]
      exact ⟨fun hm => h.1 (akeys_aerase_subset tl k hm), ih h.2⟩

theorem not_mem_akeys_aerase_self {κ α : Type} [DecidableEq κ] (l : List (κ × α)) (k : κ)
    (hn : (akeys l).Nodup) : k ∉ akeys (aerase l k) := by
  induction l with
  | nil => simp [aerase, akeys]
  | cons hd tl ih =>
    obtain ⟨k0, v0⟩ := hd
    simp only [akeys, List.map_cons, List.nodup_cons] at hn
    by_cases hk : k0 = k
    · subst hk
      simp only [aerase, if_pos rfl]
      exact fun hm => hn.1 hm
    · simp only [aerase, if_neg hk, akeys, List.map_cons, List.mem_cons]
      push_neg
      exact ⟨fun hh => hk hh.symm, by simpa [akeys] using ih hn.2⟩

theorem mem_akeys_aerase {κ α : Type} [DecidableEq κ] (l : List (κ × α)) (k k' : κ)
    (hn : (akeys l).Nodup) (h : k' ∈ akeys (aerase l k)) : k' ∈ akeys l ∧ k' ≠ k := by
  refine ⟨akeys_aerase_subset l k h, ?_⟩
  intro hkk
  subst hkk
  exact not_mem_akeys_aerase_self l k' hn h

/-! ### Loop frame lemmas -/

theorem buyOuter_nonpos (fuel : Nat) (b : OrderBook) (price rem order_id user_id : Int)
    (acc : List Trade) (h : ¬ rem > 0) :
    buyOuter fuel b price rem order_id user_id acc = (b, rem, acc) := by
  cases fuel with
  | zero => rfl
  | succ n => simp [buyOuter, h]

theorem sellOuter_nonpos (fuel : Nat) (b : OrderBook) (price rem order_id user_id : Int)
    (acc : List Trade) (h : ¬ rem > 0) :
    sellOuter fuel b price rem order_id user_id acc = (b, rem, acc) := by
  cases fuel with
  | zero => rfl
  | succ n => simp [sellOuter, h]

theorem buyOuter_active (fuel : Nat) (b : OrderBook) (price rem order_id user_id : Int)
    (acc : List Trade) :
    ((buyOuter fuel b price rem order_id user_id acc).1).active = b.active := by
  induction fuel generalizing b rem acc with
  | zero => rfl
  | succ n ih =>
    rw [buyOuter]
    by_cases h : rem > 0
    · simp only [if_pos h]
      cases hh : b.asks_heap.head? with
      | none => rfl
      | some bestAsk =>
        by_cases hp : price < bestAsk
        · simp [hp]
        · simp only [if_neg hp]
          by_cases hm : (alookup b.asks bestAsk).isNone
          · simp only [if_pos hm]
            exact ih _ _ _
          · simp only [if_neg hm]
            by_cases hc : (buyInner (n + 1) b.arena ((alookup b.asks bestAsk).getD {})
                b.orders b.positions rem order_id user_id bestAsk acc).2.1.count = 0
            · simp only [hc, if_pos rfl]
              exact ih _ _ _
            · simp only [if_neg hc]
              exact ih _ _ _
    · simp [h]

theorem addToBook_ok (b : OrderBook) (side : String) (price quantity order_id user_id : Int)
    (h : b.active = true) :
    ∃ b2, addToBook b side price quantity order_id user_id = .ok b2 := by
  unfold addToBook
  rw [h]
  by_cases h1 : side = "buy"
  · simp [h1]
  · by_cases h2 : side = "sell"
    · simp [h1, h2]
    · simp [h1, h2]

theorem listRemove_count (arena : List OrderNode) (q : OrderList) (ptr : Nat)
    (node : OrderNode) (h : arena.get? ptr = some node) :
    (listRemove arena q ptr).2.count = q.count - 1 ∧
    (listRemove arena q ptr).2.total_volume = q.total_volume - node.quantity := by
  unfold listRemove
  rw [h]
  cases hp : node.prev_node <;> cases hn : node.next_node <;> simp [hp, hn]

theorem sellOuter_active (fuel : Nat) (b : OrderBook) (price rem order_id user_id : Int)
    (acc : List Trade) :
    ((sellOuter fuel b price rem order_id user_id acc).1).active = b.active := by
  induction fuel generalizing b rem acc with
  | zero => rfl
  | succ n ih =>
    rw [sellOuter]
    by_cases h : rem > 0
    · simp only [if_pos h]
      cases hh : b.bids_heap.head? with
      | none => rfl
      | some negBid =>
        by_cases hp : price > -negBid
        · simp [hp]
        · simp only [if_neg hp]
          by_cases hm : (alookup b.bids (-negBid)).isNone
          · simp only [if_pos hm]
            exact ih _ _ _
          · simp only [if_neg hm]
            by_cases hc : (sellInner (n + 1) b.arena ((alookup b.bids (-negBid)).getD {})
                b.orders b.positions rem order_id user_id (-negBid) acc).2.1.count = 0
            · simp only [hc, if_pos rfl]
              exact ih _ _ _
            · simp only [if_neg hc]
              exact ih _ _ _
    · simp [h]

/-! ### Position-sum lemmas (towards C6) -/

theorem psum_aset (pos : List (Int × Int)) (k v : Int) :
    psum (aset pos k v) = psum pos - (alookup pos k).getD 0 + v := by
  induction pos with
  | nil => simp [aset, psum, alookup]
  | cons hd tl ih =>
    obtain ⟨k0, v0⟩ := hd
    by_cases hk : k0 = k
    · subst hk
      simp [aset, alookup, psum]
      ring
    · simp only [aset, if_neg hk, alookup, psum, List.map_cons, List.sum_cons] at ih ⊢
      rw [ih]
      ring

theorem psum_aset_add (pos : List (Int × Int)) (k d : Int) :
    psum (aset pos k ((alookup pos k).getD 0 + d)) = psum pos + d := by
  rw [psum_aset]
  ring

theorem psum_aset_sub (pos : List (Int × Int)) (k d : Int) :
    psum (aset pos k ((alookup pos k).getD 0 - d)) = psum pos - d := by
  rw [psum_aset]
  ring

theorem buyInner_psum (fuel : Nat) (arena : List OrderNode) (q : OrderList)
    (orders : List (Int × Nat)) (pos : List (Int × Int))
    (rem order_id user_id askPrice : Int) (acc : List Trade) :
    psum (buyInner fuel arena q orders pos rem order_id user_id askPrice acc).2.2.2.1
      = psum pos := by
  induction fuel generalizing arena q orders pos rem acc with
  | zero => rfl
  | succ n ih =>
    rw [buyInner]
    by_cases h : rem > 0
    · simp only [if_pos h]
      split
      · rfl
      · split
        · rfl
        · split
          · rw [ih, psum_aset_sub, psum_aset_add]
            ring
          · rw [ih, psum_aset_sub, psum_aset_add]
            ring
    · simp [h]

theorem sellInner_psum (fuel : Nat) (arena : List OrderNode) (q : OrderList)
    (orders : List (Int × Nat)) (pos : List (Int × Int))
    (rem order_id user_id bidPrice : Int) (acc : List Trade) :
    psum (sellInner fuel arena q orders pos rem order_id user_id bidPrice acc).2.2.2.1
      = psum pos := by
  induction fuel generalizing arena q orders pos rem acc with
  | zero => rfl
  | succ n ih =>
    rw [sellInner]
    by_cases h : rem > 0
    · simp only [if_pos h]
      split
      · rfl
      · split
        · rfl
        · split
          · rw [ih, psum_aset_sub, psum_aset_add]
            ring
          · rw [ih, psum_aset_sub, psum_aset_add]
            ring
    · simp [h]

theorem buyOuter_psum (fuel : Nat) (b : OrderBook) (price rem order_id user_id : Int)
    (acc : List Trade) :
    psum ((buyOuter fuel b price rem order_id user_id acc).1).positions
      = psum b.positions := by
  induction fuel generalizing b rem acc with
  | zero => rfl
  | succ n ih =>
    rw [buyOuter]
    by_cases h : rem > 0
    · simp only [if_pos h]
      cases hh : b.asks_heap.head? with
      | none => rfl
      | some bestAsk =>
        by_cases hp : price < bestAsk
        · simp [hp]
        · simp only [if_neg hp]
          by_cases hm : (alookup b.asks bestAsk).isNone
          · simp only [if_pos hm]
            exact ih _ _ _
          · simp only [if_neg hm]
            by_cases hc : (buyInner (n + 1) b.arena ((alookup b.asks bestAsk).getD {})
                b.orders b.positions rem order_id user_id bestAsk acc).2.1.count = 0
            · simp only [hc, if_pos rfl]
              rw [ih]
              exact buyInner_psum _ _ _ _ _ _ _ _ _ _
            · simp only [if_neg hc]
              rw [ih]
              exact buyInner_psum _ _ _ _ _ _ _ _ _ _
    · simp [h]

theorem sellOuter_psum (fuel : Nat) (b : OrderBook) (price rem order_id user_id : Int)
    (acc : List Trade) :
    psum ((sellOuter fuel b price rem order_id user_id acc).1).positions
      = psum b.positions := by
  induction fuel generalizing b rem acc with
  | zero => rfl
  | succ n ih =>
    rw [sellOuter]
    by_cases h : rem > 0
    · simp only [if_pos h]
      cases hh : b.bids_heap.head? with
      | none => rfl
      | some negBid =>
        by_cases hp : price > -negBid
        · simp [hp]
        · simp only [if_neg hp]
          by_cases hm : (alookup b.bids (-negBid)).isNone
          · simp only [if_pos hm]
            exact ih _ _ _
          · simp only [if_neg hm]
            by_cases hc : (sellInner (n + 1) b.arena ((alookup b.bids (-negBid)).getD {})
                b.orders b.positions rem order_id user_id (-negBid) acc).2.1.count = 0
            · simp only [hc, if_pos rfl]
              rw [ih]
              exact sellInner_psum _ _ _ _ _ _ _ _ _ _
            · simp only [if_neg hc]
              rw [ih]
              exact sellInner_psum _ _ _ _ _ _ _ _ _ _
    · simp [h]

theorem addToBook_positions (b : OrderBook) (side : String)
    (price quantity order_id user_id : Int) (b2 : OrderBook)
    (h : addToBook b side price quantity order_id user_id = .ok b2) :
    b2.positions = b.positions := by
  unfold addToBook at h
  by_cases ha : b.active
  · rw [ha] at h
    simp only [Bool.not_true, Bool.false_eq_true, if_false] at h
    by_cases h1 : side = "buy"
    · simp only [if_pos h1] at h
      cases h
      rfl
    · by_cases h2 : side = "sell"
      · simp only [if_neg h1, if_pos h2] at h
        cases h
        rfl
      · simp only [if_neg h1, if_neg h2] at h
        cases h
        rfl
  · have ha2 : b.active = false := by
      cases hb : b.active
      · rfl
      · exact absurd hb ha
    rw [ha2] at h
    simp at h

theorem processOrder_psum (fuel : Nat) (b : OrderBook) (side : String)
    (price quantity order_id user_id : Int) (b2 : OrderBook) (ts : List Trade)
    (h : processOrder fuel b side price quantity order_id user_id = .ok (b2, ts)) :
    psum b2.positions = psum b.positions := by
  unfold processOrder at h
  by_cases ha : b.active
  · rw [ha] at h
    simp only [Bool.not_true, Bool.false_eq_true, if_false] at h
    set r := (if side = "buy" then buyOuter fuel b price quantity order_id user_id []
              else if side = "sell" then sellOuter fuel b price quantity order_id user_id []
              else (b, quantity, ([] : List Trade))) with hr
    have hrp : psum r.1.positions = psum b.positions := by
      rw [hr]
      by_cases h1 : side = "buy"
      · simp only [if_pos h1]
        exact buyOuter_psum _ _ _ _ _ _ _
      · by_cases h2 : side = "sell"
        · simp only [if_neg h1, if_pos h2]
          exact sellOuter_psum _ _ _ _ _ _ _
        · simp [h1, h2]
    by_cases hq : r.2.1 > 0
    · rw [if_pos hq] at h
      cases hab : addToBook r.1 side price r.2.1 order_id user_id with
      | error e => rw [hab] at h; exact absurd h (by simp)
      | ok b3 =>
        rw [hab] at h
        cases h
        rw [addToBook_positions _ _ _ _ _ _ _ hab]
        exact hrp
    · rw [if_neg hq] at h
      cases h
      exact hrp
  · have ha2 : b.active = false := by
      cases hb : b.active
      · rfl
      · exact absurd hb ha
    rw [ha2] at h
    simp at h

theorem cancelOrder_positions (b : OrderBook) (order_id : Int) :
    (cancelOrder b order_id).positions = b.positions := by
  unfold cancelOrder
  split
  · rfl
  · split
    · rfl
    · dsimp only
      split
      · rfl
      · split
        · rfl
        · rfl

theorem foldl_cancelOrder_positions (ids : List Int) (b : OrderBook) :
    (ids.foldl cancelOrder b).positions = b.positions := by
  induction ids generalizing b with
  | nil => rfl
  | cons hd tl ih =>
    rw [List.foldl_cons, ih, cancelOrder_positions]

theorem settlePositions_psum (terminal : Int) (pos : List (Int × Int)) :
    psum (settlePositions terminal pos).1 = 0 := by
  induction pos with
  | nil => rfl
  | cons hd tl ih =>
    obtain ⟨uid, net⟩ := hd
    by_cases hz : net = 0
    · simp only [settlePositions, if_pos hz, psum, List.map_cons, List.sum_cons]
      simp only [psum] at ih
      rw [ih, hz]
      ring
    · simp only [settlePositions, if_neg hz, psum, List.map_cons, List.sum_cons]
      simp only [psum] at ih
      rw [ih]
      ring

theorem settleMarket_psum (b : OrderBook) (terminal : Int) :
    psum ((settleMarket b terminal).1).positions = 0 := by
  unfold settleMarket
  exact settlePositions_psum _ _

theorem applyOp_psum (b : OrderBook) (op : BookOp) (h : psum b.positions = 0) :
    psum (applyOp b op).positions = 0 := by
  cases op with
  | process fuel side price qty oid uid =>
    simp only [applyOp]
    cases hp : processOrder fuel b side price qty oid uid with
    | error e => exact h
    | ok r =>
      rw [processOrder_psum fuel b side price qty oid uid r.1 r.2 (by rw [hp])]
      exact h
  | add side price qty oid uid =>
    simp only [applyOp, addOrder]
    cases hp : addToBook b side price qty oid uid with
    | error e => exact h
    | ok b2 =>
      rw [addToBook_positions _ _ _ _ _ _ _ hp]
      exact h
  | cancel oid =>
    simp only [applyOp]
    rw [cancelOrder_positions]
    exact h
  | settle t =>
    simp only [applyOp]
    exact settleMarket_psum _ _

theorem foldl_applyOp_psum (ops : List BookOp) (b : OrderBook)
    (h : psum b.positions = 0) : psum (ops.foldl applyOp b).positions = 0 := by
  induction ops generalizing b with
  | nil => exact h
  | cons hd tl ih =>
    rw [List.foldl_cons]
    exact ih _ (applyOp_psum b hd h)

/-! ### Claim C6 -/

/-- C6: starting from the empty book, after every sequence of
operations — `process_order` with any fuel, `add_order`,
`cancel_order`, `settle_market` — the book's net positions sum to
zero (settlement zeroes every position, so the sum including the
SYSTEM user stays 0). -/
theorem C6_positions_sum_zero (ops : List BookOp) : psum (runOps ops).positions = 0 :=
  foldl_applyOp_psum ops {} rfl

/-! ### Heap-model lemmas (towards C7) -/

theorem mem_heapPush (h : List Int) (x y : Int) :
    y ∈ heapPush h x ↔ y = x ∨ y ∈ h := by
  induction h with
  | nil => simp [heapPush]
  | cons z zs ih =>
    by_cases hz : x ≤ z
    · simp only [heapPush, if_pos hz, List.mem_cons]
    · simp only [heapPush, if_neg hz, List.mem_cons, ih]
      tauto

theorem heapPush_sorted (h : List Int) (x : Int) (hs : h.Sorted (· ≤ ·)) :
    (heapPush h x).Sorted (· ≤ ·) := by
  induction h with
  | nil => simp [heapPush]
  | cons z zs ih =>
    rcases List.sorted_cons.mp hs with ⟨hz1, hz2⟩
    by_cases hz : x ≤ z
    · rw [heapPush, if_pos hz]
      refine List.sorted_cons.mpr ⟨?_, hs⟩
      intro b hb
      rcases List.mem_cons.mp hb with hb | hb
      · omega
      · have := hz1 b hb
        omega
    · rw [heapPush, if_neg hz]
      refine List.sorted_cons.mpr ⟨?_, ih hz2⟩
      intro b hb
      rcases (mem_heapPush zs x b).mp hb with hb | hb
      · omega
      · exact hz1 b hb

theorem nodup_concat {α : Type} (l : List α) (a : α) (h1 : l.Nodup) (h2 : a ∉ l) :
    (l ++ [a]).Nodup := by
  rw [List.nodup_append]
  refine ⟨h1, List.nodup_singleton a, ?_⟩
  intro x hx hxa
  rcases List.mem_singleton.mp hxa with rfl
  exact h2 hx

theorem mem_akeys_of_isSome {κ α : Type} [DecidableEq κ] (l : List (κ × α)) (k : κ)
    (h : (alookup l k).isSome = true) : k ∈ akeys l := by
  obtain ⟨v, hv⟩ := Option.isSome_iff_exists.mp h
  exact mem_akeys_of_alookup l k v hv

theorem not_mem_akeys_of_isNone {κ α : Type} [DecidableEq κ] (l : List (κ × α)) (k : κ)
    (h : (alookup l k).isNone = true) : k ∉ akeys l :=
  alookup_isNone_not_mem l k (Option.isNone_iff_eq_none.mp h)

theorem bestBidLoop_max (bids : List (Int × OrderList)) (heap : List Int)
    (hs : heap.Sorted (· ≤ ·)) (hm : ∀ p, p ∈ akeys bids → -p ∈ heap) :
    (bestBidLoop bids heap).1 = (akeys bids).max? := by
  induction heap with
  | nil =>
    have hk : akeys bids = [] := by
      cases hk : akeys bids with
      | nil => rfl
      | cons p ps => exact absurd (hm p (by simp [hk])) (by simp)
    rw [bestBidLoop, hk]
    rfl
  | cons x rest ih =>
    rw [bestBidLoop]
    by_cases hx : (alookup bids (-x)).isSome
    · simp only [if_pos hx]
      obtain ⟨v, hv⟩ := Option.isSome_iff_exists.mp hx
      have hmem : -x ∈ akeys bids := mem_akeys_of_alookup _ _ _ hv
      have hub : ∀ p ∈ akeys bids, p ≤ -x := by
        intro p hp
        have h1 : -p ∈ x :: rest := hm p hp
        rcases List.mem_cons.mp h1 with h | h
        · omega
        · have := (List.sorted_cons.mp hs).1 _ h
          omega
      symm
      rw [@List.max?_eq_some_iff Int _ _ _ ⟨fun h1 h2 => le_antisymm h1 h2⟩
        (fun a => le_refl a) (fun a b => max_choice a b) (fun a b c => max_le_iff)]
      exact ⟨hmem, hub⟩
    · simp only [if_neg hx]
      apply ih (List.sorted_cons.mp hs).2
      intro p hp
      have h1 := hm p hp
      rcases List.mem_cons.mp h1 with h | h
      · exfalso
        have hnone : alookup bids (-x) = none := by
          cases hl : alookup bids (-x) with
          | none => rfl
          | some w => rw [hl] at hx; simp at hx
        have hnm := alookup_isNone_not_mem bids (-x) hnone
        have hpx : p = -x := by omega
        rw [hpx] at hp
        exact hnm hp
      · exact h

theorem bestAskLoop_min (asks : List (Int × OrderList)) (heap : List Int)
    (hs : heap.Sorted (· ≤ ·)) (hm : ∀ p, p ∈ akeys asks → p ∈ heap) :
    (bestAskLoop asks heap).1 = (akeys asks).min? := by
  induction heap with
  | nil =>
    have hk : akeys asks = [] := by
      cases hk : akeys asks with
      | nil => rfl
      | cons p ps => exact absurd (hm p (by simp [hk])) (by simp)
    rw [bestAskLoop, hk]
    rfl
  | cons x rest ih =>
    rw [bestAskLoop]
    by_cases hx : (alookup asks x).isSome
    · simp only [if_pos hx]
      obtain ⟨v, hv⟩ := Option.isSome_iff_exists.mp hx
      have hmem : x ∈ akeys asks := mem_akeys_of_alookup _ _ _ hv
      have hub : ∀ p ∈ akeys asks, x ≤ p := by
        intro p hp
        have h1 : p ∈ x :: rest := hm p hp
        rcases List.mem_cons.mp h1 with h | h
        · omega
        · exact (List.sorted_cons.mp hs).1 _ h
      symm
      rw [@List.min?_eq_some_iff Int _ _ _ ⟨fun h1 h2 => le_antisymm h1 h2⟩
        (fun a => le_refl a) (fun a b => min_choice a b) (fun a b c => le_min_iff)]
      exact ⟨hmem, hub⟩
    · simp only [if_neg hx]
      apply ih (List.sorted_cons.mp hs).2
      intro p hp
      have h1 := hm p hp
      rcases List.mem_cons.mp h1 with h | h
      · exfalso
        have hnone : alookup asks x = none := by
          cases hl : alookup asks x with
          | none => rfl
          | some w => rw [hl] at hx; simp at hx
        have hnm := alookup_isNone_not_mem asks x hnone
        rw [h] at hp
        exact hnm hp
      · exact h

theorem addToBook_heapInv (b : OrderBook) (side : String)
    (price quantity order_id user_id : Int) (b2 : OrderBook)
    (hinv : HeapInv b) (h : addToBook b side price quantity order_id user_id = .ok b2) :
    HeapInv b2 := by
  unfold addToBook at h
  by_cases ha : b.active
  · rw [ha] at h
    simp only [Bool.not_true, Bool.false_eq_true, if_false] at h
    by_cases h1 : side = "buy"
    · rw [if_pos h1] at h
      by_cases hc : (alookup b.bids price).isNone = true
      · rw [if_pos hc, if_pos hc] at h
        cases h
        have hpnot : price ∉ akeys b.bids := not_mem_akeys_of_isNone _ _ hc
        have hkeys : ∀ v : OrderList,
            akeys (aset (aset b.bids price {}) price v) = akeys b.bids ++ [price] := by
          intro v
          rw [akeys_aset_of_mem _ _ _
            (mem_akeys_of_alookup _ _ _ (alookup_aset_self b.bids price {})),
            akeys_aset_of_not_mem _ _ _ hpnot]
        constructor
        · intro p hp
          rw [hkeys] at hp
          rcases List.mem_append.mp hp with hp | hp
          · exact (mem_heapPush _ _ _).mpr (Or.inr (hinv.bidsMem p hp))
          · rcases List.mem_singleton.mp hp with rfl
            exact (mem_heapPush _ _ _).mpr (Or.inl rfl)
        · exact hinv.asksMem
        · exact heapPush_sorted _ _ hinv.bidsSorted
        · exact hinv.asksSorted
        · rw [hkeys]
          exact nodup_concat _ _ hinv.bidsNodup hpnot
        · exact hinv.asksNodup
      · rw [if_neg hc, if_neg hc] at h
        cases h
        have hpmem : price ∈ akeys b.bids := by
          apply mem_akeys_of_isSome
          cases hl : (alookup b.bids price) with
          | none => rw [hl] at hc; simp at hc
          | some v => simp
        have hkeys : ∀ v : OrderList, akeys (aset b.bids price v) = akeys b.bids :=
          fun v => akeys_aset_of_mem _ _ _ hpmem
        constructor
        · intro p hp
          rw [hkeys] at hp
          exact hinv.bidsMem p hp
        · exact hinv.asksMem
        · exact hinv.bidsSorted
        · exact hinv.asksSorted
        · rw [hkeys]; exact hinv.bidsNodup
        · exact hinv.asksNodup
    · by_cases h2 : side = "sell"
      · rw [if_neg h1, if_pos h2] at h
        by_cases hc : (alookup b.asks price).isNone = true
        · rw [if_pos hc, if_pos hc] at h
          cases h
          have hpnot : price ∉ akeys b.asks := not_mem_akeys_of_isNone _ _ hc
          have hkeys : ∀ v : OrderList,
              akeys (aset (aset b.asks price {}) price v) = akeys b.asks ++ [price] := by
            intro v
            rw [akeys_aset_of_mem _ _ _
              (mem_akeys_of_alookup _ _ _ (alookup_aset_self b.asks price {})),
              akeys_aset_of_not_mem _ _ _ hpnot]
          constructor
          · exact hinv.bidsMem
          · intro p hp
            rw [hkeys] at hp
            rcases List.mem_append.mp hp with hp | hp
            · exact (mem_heapPush _ _ _).mpr (Or.inr (hinv.asksMem p hp))
            · rcases List.mem_singleton.mp hp with rfl
              exact (mem_heapPush _ _ _).mpr (Or.inl rfl)
          · exact hinv.bidsSorted
          · exact heapPush_sorted _ _ hinv.asksSorted
          · exact hinv.bidsNodup
          · rw [hkeys]
            exact nodup_concat _ _ hinv.asksNodup hpnot
        · rw [if_neg hc, if_neg hc] at h
          cases h
          have hpmem : price ∈ akeys b.asks := by
            apply mem_akeys_of_isSome
            cases hl : (alookup b.asks price) with
            | none => rw [hl] at hc; simp at hc
            | some v => simp
          have hkeys : ∀ v : OrderList, akeys (aset b.asks price v) = akeys b.asks :=
            fun v => akeys_aset_of_mem _ _ _ hpmem
          constructor
          · exact hinv.bidsMem
          · intro p hp
            rw [hkeys] at hp
            exact hinv.asksMem p hp
          · exact hinv.bidsSorted
          · exact hinv.asksSorted
          · exact hinv.bidsNodup
          · rw [hkeys]; exact hinv.asksNodup
      · rw [if_neg h1, if_neg h2] at h
        cases h
        exact ⟨hinv.bidsMem, hinv.asksMem, hinv.bidsSorted, hinv.asksSorted,
          hinv.bidsNodup, hinv.asksNodup⟩
  · have ha2 : b.active = false := by
      cases hb : b.active
      · rfl
      · exact absurd hb ha
    rw [ha2] at h
    simp at h

theorem cancelOrder_heapInv (b : OrderBook) (order_id : Int) (hinv : HeapInv b) :
    HeapInv (cancelOrder b order_id) := by
  unfold cancelOrder
  split
  · exact hinv
  · split
    · exact ⟨hinv.bidsMem, hinv.asksMem, hinv.bidsSorted, hinv.asksSorted,
        hinv.bidsNodup, hinv.asksNodup⟩
    · dsimp only
      split
      · next hsome =>
        have hpmem := mem_akeys_of_isSome _ _ hsome
        split
        · exact ⟨fun p hp => hinv.bidsMem p (akeys_aerase_subset _ _ hp), hinv.asksMem,
            hinv.bidsSorted, hinv.asksSorted,
            akeys_aerase_nodup _ _ hinv.bidsNodup, hinv.asksNodup⟩
        · exact ⟨fun p hp => hinv.bidsMem p
              (by rwa [akeys_aset_of_mem _ _ _ hpmem] at hp),
            hinv.asksMem, hinv.bidsSorted, hinv.asksSorted,
            (by rw [akeys_aset_of_mem _ _ _ hpmem]; exact hinv.bidsNodup),
            hinv.asksNodup⟩
      · split
        · next hsome =>
          have hpmem := mem_akeys_of_isSome _ _ hsome
          split
          · exact ⟨hinv.bidsMem,
              fun p hp => hinv.asksMem p (akeys_aerase_subset _ _ hp),
              hinv.bidsSorted, hinv.asksSorted, hinv.bidsNodup,
              akeys_aerase_nodup _ _ hinv.asksNodup⟩
          · exact ⟨hinv.bidsMem,
              fun p hp => hinv.asksMem p
                (by rwa [akeys_aset_of_mem _ _ _ hpmem] at hp),
              hinv.bidsSorted, hinv.asksSorted, hinv.bidsNodup,
              (by rw [akeys_aset_of_mem _ _ _ hpmem]; exact hinv.asksNodup)⟩
        · exact ⟨hinv.bidsMem, hinv.asksMem, hinv.bidsSorted, hinv.asksSorted,
            hinv.bidsNodup, hinv.asksNodup⟩

theorem buyOuter_heapInv (fuel : Nat) (b : OrderBook) (price rem order_id user_id : Int)
    (acc : List Trade) (hinv : HeapInv b) :
    HeapInv (buyOuter fuel b price rem order_id user_id acc).1 := by
  induction fuel generalizing b rem acc with
  | zero => exact hinv
  | succ n ih =>
    rw [buyOuter]
    by_cases h : rem > 0
    · simp only [if_pos h]
      cases hh : b.asks_heap.head? with
      | none => exact hinv
      | some bestAsk =>
        obtain ⟨tl, hheap⟩ : ∃ tl, b.asks_heap = bestAsk :: tl := by
          cases hcase : b.asks_heap with
          | nil => rw [hcase] at hh; simp at hh
          | cons hd tl2 =>
            rw [hcase] at hh
            simp at hh
            exact ⟨tl2, by rw [hh]⟩
        have htailsorted : (b.asks_heap.tail).Sorted (· ≤ ·) := by
          rw [hheap]
          exact (List.sorted_cons.mp (hheap ▸ hinv.asksSorted)).2
        by_cases hp : price < bestAsk
        · simp only [if_pos hp]
          exact hinv
        · simp only [if_neg hp]
          by_cases hm : (alookup b.asks bestAsk).isNone
          · simp only [if_pos hm]
            apply ih
            refine ⟨hinv.bidsMem, ?_, hinv.bidsSorted, htailsorted,
              hinv.bidsNodup, hinv.asksNodup⟩
            intro p hp2
            have h1 := hinv.asksMem p hp2
            have hne : p ≠ bestAsk := by
              intro hpe
              exact (not_mem_akeys_of_isNone _ _ hm) (hpe ▸ hp2)
            rw [hheap] at h1
            try dsimp only
            rw [hheap]
            rcases List.mem_cons.mp h1 with h2 | h2
            · exact absurd h2 hne
            · simpa using h2
          · simp only [if_neg hm]
            have hpmem : bestAsk ∈ akeys b.asks := by
              apply mem_akeys_of_isSome
              cases hl : alookup b.asks bestAsk with
              | none => rw [hl] at hm; simp at hm
              | some v => simp
            by_cases hcnt : (buyInner (n + 1) b.arena ((alookup b.asks bestAsk).getD {})
                b.orders b.positions rem order_id user_id bestAsk acc).2.1.count = 0
            · simp only [hcnt, if_pos rfl]
              apply ih
              refine ⟨hinv.bidsMem, ?_, hinv.bidsSorted, htailsorted,
                hinv.bidsNodup, akeys_aerase_nodup _ _ hinv.asksNodup⟩
              intro p hp2
              obtain ⟨hmem2, hne⟩ := mem_akeys_aerase _ _ _ hinv.asksNodup hp2
              have h1 := hinv.asksMem p hmem2
              rw [hheap] at h1
              try dsimp only
              rw [hheap]
              rcases List.mem_cons.mp h1 with h2 | h2
              · exact absurd h2 hne
              · simpa using h2
            · simp only [if_neg hcnt]
              apply ih
              refine ⟨hinv.bidsMem, ?_, hinv.bidsSorted, hinv.asksSorted,
                hinv.bidsNodup, ?_⟩
              · intro p hp2
                rw [akeys_aset_of_mem _ _ _ hpmem] at hp2
                exact hinv.asksMem p hp2
              · rw [akeys_aset_of_mem _ _ _ hpmem]
                exact hinv.asksNodup
    · simp only [if_neg h]
      exact hinv

theorem sellOuter_heapInv (fuel : Nat) (b : OrderBook) (price rem order_id user_id : Int)
    (acc : List Trade) (hinv : HeapInv b) :
    HeapInv (sellOuter fuel b price rem order_id user_id acc).1 := by
  induction fuel generalizing b rem acc with
  | zero => exact hinv
  | succ n ih =>
    rw [sellOuter]
    by_cases h : rem > 0
    · simp only [if_pos h]
      cases hh : b.bids_heap.head? with
      | none => exact hinv
      | some negBid =>
        obtain ⟨tl, hheap⟩ : ∃ tl, b.bids_heap = negBid :: tl := by
          cases hcase : b.bids_heap with
          | nil => rw [hcase] at hh; simp at hh
          | cons hd tl2 =>
            rw [hcase] at hh
            simp at hh
            exact ⟨tl2, by rw [hh]⟩
        have htailsorted : (b.bids_heap.tail).Sorted (· ≤ ·) := by
          rw [hheap]
          exact (List.sorted_cons.mp (hheap ▸ hinv.bidsSorted)).2
        by_cases hp : price > -negBid
        · simp only [if_pos hp]
          exact hinv
        · simp only [if_neg hp]
          by_cases hm : (alookup b.bids (-negBid)).isNone
          · simp only [if_pos hm]
            apply ih
            refine ⟨?_, hinv.asksMem, htailsorted, hinv.asksSorted,
              hinv.bidsNodup, hinv.asksNodup⟩
            intro p hp2
            have h1 := hinv.bidsMem p hp2
            have hne : -p ≠ negBid := by
              intro hpe
              exact (not_mem_akeys_of_isNone _ _ hm) (by rw [← hpe]; simpa using hp2)
            rw [hheap] at h1
            try dsimp only
            rw [hheap]
            rcases List.mem_cons.mp h1 with h2 | h2
            · exact absurd h2 hne
            · simpa using h2
          · simp only [if_neg hm]
            have hpmem : -negBid ∈ akeys b.bids := by
              apply mem_akeys_of_isSome
              cases hl : alookup b.bids (-negBid) with
              | none => rw [hl] at hm; simp at hm
              | some v => simp
            by_cases hcnt : (sellInner (n + 1) b.arena ((alookup b.bids (-negBid)).getD {})
                b.orders b.positions rem order_id user_id (-negBid) acc).2.1.count = 0
            · simp only [hcnt, if_pos rfl]
              apply ih
              refine ⟨?_, hinv.asksMem, htailsorted, hinv.asksSorted,
                akeys_aerase_nodup _ _ hinv.bidsNodup, hinv.asksNodup⟩
              intro p hp2
              obtain ⟨hmem2, hne⟩ := mem_akeys_aerase _ _ _ hinv.bidsNodup hp2
              have h1 := hinv.bidsMem p hmem2
              rw [hheap] at h1
              try dsimp only
              rw [hheap]
              rcases List.mem_cons.mp h1 with h2 | h2
              · exfalso
                apply hne
                omega
              · simpa using h2
            · simp only [if_neg hcnt]
              apply ih
              refine ⟨?_, hinv.asksMem, hinv.bidsSorted, hinv.asksSorted, ?_,
                hinv.asksNodup⟩
              · intro p hp2
                rw [akeys_aset_of_mem _ _ _ hpmem] at hp2
                exact hinv.bidsMem p hp2
              · rw [akeys_aset_of_mem _ _ _ hpmem]
                exact hinv.bidsNodup
    · simp only [if_neg h]
      exact hinv

theorem processOrder_heapInv (fuel : Nat) (b : OrderBook) (side : String)
    (price quantity order_id user_id : Int) (b2 : OrderBook) (ts : List Trade)
    (hinv : HeapInv b)
    (h : processOrder fuel b side price quantity order_id user_id = .ok (b2, ts)) :
    HeapInv b2 := by
  unfold processOrder at h
  by_cases ha : b.active
  · rw [ha] at h
    simp only [Bool.not_true, Bool.false_eq_true, if_false] at h
    set r := (if side = "buy" then buyOuter fuel b price quantity order_id user_id []
              else if side = "sell" then sellOuter fuel b price quantity order_id user_id []
              else (b, quantity, ([] : List Trade))) with hr
    have hrinv : HeapInv r.1 := by
      rw [hr]
      by_cases h1 : side = "buy"
      · simp only [if_pos h1]
        exact buyOuter_heapInv _ _ _ _ _ _ _ hinv
      · by_cases h2 : side = "sell"
        · simp only [if_neg h1, if_pos h2]
          exact sellOuter_heapInv _ _ _ _ _ _ _ hinv
        · simp only [if_neg h1, if_neg h2]
          exact hinv
    by_cases hq : r.2.1 > 0
    · rw [if_pos hq] at h
      cases hab : addToBook r.1 side price r.2.1 order_id user_id with
      | error e => rw [hab] at h; exact absurd h (by simp)
      | ok b3 =>
        rw [hab] at h
        cases h
        exact addToBook_heapInv _ _ _ _ _ _ _ hrinv hab
    · rw [if_neg hq] at h
      cases h
      exact hrinv
  · have ha2 : b.active = false := by
      cases hb : b.active
      · rfl
      · exact absurd hb ha
    rw [ha2] at h
    simp at h

theorem foldl_cancelOrder_heapInv (ids : List Int) (b : OrderBook) (hinv : HeapInv b) :
    HeapInv (ids.foldl cancelOrder b) := by
  induction ids generalizing b with
  | nil => exact hinv
  | cons hd tl ih =>
    rw [List.foldl_cons]
    exact ih _ (cancelOrder_heapInv _ _ hinv)

theorem settleMarket_heapInv (b : OrderBook) (terminal : Int) (hinv : HeapInv b) :
    HeapInv (settleMarket b terminal).1 := by
  unfold settleMarket
  have h1 : HeapInv ({ b with active := false } : OrderBook) :=
    ⟨hinv.bidsMem, hinv.asksMem, hinv.bidsSorted, hinv.asksSorted,
      hinv.bidsNodup, hinv.asksNodup⟩
  have h2 := foldl_cancelOrder_heapInv
    (List.map Prod.fst ({ b with active := false } : OrderBook).orders)
    { b with active := false } h1
  exact ⟨h2.bidsMem, h2.asksMem, h2.bidsSorted, h2.asksSorted,
    h2.bidsNodup, h2.asksNodup⟩

theorem applyOp_heapInv (b : OrderBook) (op : BookOp) (hinv : HeapInv b) :
    HeapInv (applyOp b op) := by
  cases op with
  | process fuel side price qty oid uid =>
    simp only [applyOp]
    cases hp : processOrder fuel b side price qty oid uid with
    | error e => exact hinv
    | ok r => exact processOrder_heapInv fuel b side price qty oid uid r.1 r.2 hinv (by rw [hp])
  | add side price qty oid uid =>
    simp only [applyOp, addOrder]
    cases hp : addToBook b side price qty oid uid with
    | error e => exact hinv
    | ok b2 => exact addToBook_heapInv _ _ _ _ _ _ _ hinv hp
  | cancel oid =>
    simp only [applyOp]
    exact cancelOrder_heapInv _ _ hinv
  | settle t =>
    simp only [applyOp]
    exact settleMarket_heapInv _ _ hinv

theorem runOps_heapInv (ops : List BookOp) : HeapInv (runOps ops) := by
  have base : HeapInv ({} : OrderBook) :=
    ⟨fun p hp => by simp [akeys] at hp, fun p hp => by simp [akeys] at hp,
      List.sorted_nil, List.sorted_nil, List.nodup_nil, List.nodup_nil⟩
  unfold runOps
  induction ops with
  | nil => exact base
  | cons hd tl ih =>
    rw [List.foldl_cons]
    clear ih
    have : ∀ (l : List BookOp) (b : OrderBook), HeapInv b → HeapInv (l.foldl applyOp b) := by
      intro l
      induction l with
      | nil => exact fun b hb => hb
      | cons x xs ihl =>
        intro b hb
        rw [List.foldl_cons]
        exact ihl _ (applyOp_heapInv _ _ hb)
    exact this tl _ (applyOp_heapInv _ _ base)

/-! ### Claim C7 -/

/-- C7: after any sequence of book operations starting from the empty
book, `get_best_bid` returns the maximum key of the bid side map (or
none when it is empty) and `get_best_ask` the minimum key of the ask
side map, despite stale lazy-deletion entries resting in the heaps. -/
theorem C7_best_bid_ask (ops : List BookOp) :
    (getBestBid (runOps ops)).1 = (akeys (runOps ops).bids).max? ∧
    (getBestAsk (runOps ops)).1 = (akeys (runOps ops).asks).min? := by
  have hinv := runOps_heapInv ops
  constructor
  · exact bestBidLoop_max _ _ hinv.bidsSorted hinv.bidsMem
  · exact bestAskLoop_min _ _ hinv.asksSorted hinv.asksMem

/-! ### Arena lemmas (towards C5) -/

theorem get?_set_ne {α : Type} (l : List α) (i j : Nat) (x : α) (h : i ≠ j) :
    (l.set i x).get? j = l.get? j := by
  simp [List.getElem?_set_ne h]

theorem lt_of_get?_some {α : Type} (l : List α) (i : Nat) (n : α) (h : l.get? i = some n) :
    i < l.length := by
  by_contra hlt
  rw [List.get?_eq_none.mpr (le_of_not_lt hlt)] at h
  exact Option.noConfusion h

theorem get?_set_self {α : Type} (l : List α) (i : Nat) (x n : α)
    (h : l.get? i = some n) : (l.set i x).get? i = some x := by
  simp [List.getElem?_set_self, lt_of_get?_some l i n h]

theorem get?_append_some {α : Type} (l l2 : List α) (i : Nat) (n : α)
    (h : l.get? i = some n) : (l ++ l2).get? i = some n := by
  rw [List.get?_append (lt_of_get?_some l i n h)]
  exact h

theorem alookup_mem {κ α : Type} [DecidableEq κ] (l : List (κ × α)) (k : κ) (v : α)
    (h : alookup l k = some v) : (k, v) ∈ l := by
  induction l with
  | nil => simp [alookup] at h
  | cons hd tl ih =>
    obtain ⟨k0, v0⟩ := hd
    by_cases hk : k0 = k
    · subst hk
      simp only [alookup, if_pos rfl] at h
      cases h
      exact List.mem_cons_self _ _
    · simp only [alookup, if_neg hk] at h
      exact List.mem_cons_of_mem _ (ih h)

theorem mem_aset_elim {κ α : Type} [DecidableEq κ] (l : List (κ × α)) (k : κ) (v : α)
    (x : κ × α) (h : x ∈ aset l k v) : x = (k, v) ∨ x ∈ l := by
  induction l with
  | nil => simpa [aset] using h
  | cons hd tl ih =>
    obtain ⟨k0, v0⟩ := hd
    by_cases hk : k0 = k
    · rw [aset, if_pos hk] at h
      rcases List.mem_cons.mp h with h1 | h1
      · exact Or.inl h1
      · exact Or.inr (List.mem_cons_of_mem _ h1)
    · rw [aset, if_neg hk] at h
      rcases List.mem_cons.mp h with h1 | h1
      · exact Or.inr (h1 ▸ List.mem_cons_self _ _)
      · rcases ih h1 with h2 | h2
        · exact Or.inl h2
        · exact Or.inr (List.mem_cons_of_mem _ h2)

theorem mem_aerase_sub {κ α : Type} [DecidableEq κ] (l : List (κ × α)) (k : κ)
    (x : κ × α) (h : x ∈ aerase l k) : x ∈ l := by
  induction l with
  | nil => simpa [aerase] using h
  | cons hd tl ih =>
    obtain ⟨k0, v0⟩ := hd
    by_cases hk : k0 = k
    · rw [aerase, if_pos hk] at h
      exact List.mem_cons_of_mem _ h
    · rw [aerase, if_neg hk] at h
      rcases List.mem_cons.mp h with h1 | h1
      · exact h1 ▸ List.mem_cons_self _ _
      · exact List.mem_cons_of_mem _ (ih h1)

theorem arenaSim_refl (a : List OrderNode) : ArenaSim a a := fun _ => rfl

theorem arenaSim_trans (a b c : List OrderNode) (h1 : ArenaSim a b) (h2 : ArenaSim b c) :
    ArenaSim a c := fun i => (h1 i).trans (h2 i)

theorem arenaSim_set (a : List OrderNode) (i : Nat) (n n' : OrderNode)
    (h : a.get? i = some n) (hk : nodeKey n' = nodeKey n) : ArenaSim a (a.set i n') := by
  intro j
  by_cases hij : i = j
  · subst hij
    rw [h, get?_set_self a i n' n h]
    simp [hk]
  · rw [get?_set_ne a i j n' hij]

theorem target_of_sim (a a' : List OrderNode) (hsim : ArenaSim a a') (j : Nat) (P : Int)
    (h : ∃ m, a.get? j = some m ∧ m.price = P) :
    ∃ m, a'.get? j = some m ∧ m.price = P := by
  obtain ⟨m, hm, hp⟩ := h
  have hs := hsim j
  rw [hm] at hs
  cases hm' : a'.get? j with
  | none =>
    rw [hm'] at hs
    simp at hs
  | some m' =>
    rw [hm'] at hs
    simp at hs
    have hpr : m.price = m'.price := congrArg (fun t : Int × Int × Int => t.2.2) hs
    exact ⟨m', rfl, by omega⟩

theorem qok_of_sim (a a' : List OrderNode) (q : OrderList) (p : Int)
    (hsim : ArenaSim a a') (h : QOk a q p) : QOk a' q p :=
  ⟨fun x hx => target_of_sim a a' hsim x p (h.1 x hx),
   fun x hx => target_of_sim a a' hsim x p (h.2 x hx)⟩

theorem levelsOk_of_sim (a a' : List OrderNode) (levels : List (Int × OrderList))
    (hsim : ArenaSim a a') (h : LevelsOk a levels) : LevelsOk a' levels :=
  fun p q hm => qok_of_sim a a' q p hsim (h p q hm)

theorem witness_of_sim (a a' : List OrderNode) (hsim : ArenaSim a a') (oid P : Int)
    (h : ∃ i n, a'.get? i = some n ∧ n.order_id = oid ∧ n.price = P) :
    ∃ i n, a.get? i = some n ∧ n.order_id = oid ∧ n.price = P := by
  obtain ⟨i, n, hn, ho, hp⟩ := h
  have hsi := hsim i
  rw [hn] at hsi
  cases hm : a.get? i with
  | none =>
    rw [hm] at hsi
    simp at hsi
  | some m =>
    rw [hm] at hsi
    simp at hsi
    have h1 : m.order_id = n.order_id := congrArg (fun t : Int × Int × Int => t.1) hsi
    have h2 : m.price = n.price := congrArg (fun t : Int × Int × Int => t.2.2) hsi
    exact ⟨i, m, hm, by omega, by omega⟩

theorem target_set (a : List OrderNode) (i : Nat) (ni n' : OrderNode)
    (hi : a.get? i = some ni) (hprice : n'.price = ni.price) (j : Nat) (P : Int)
    (hj : ∃ m, a.get? j = some m ∧ m.price = P) :
    ∃ m, (a.set i n').get? j = some m ∧ m.price = P := by
  obtain ⟨m, hm, hp⟩ := hj
  by_cases hij : i = j
  · subst hij
    have hmni : m = ni := Option.some.inj (hm.symm.trans hi)
    refine ⟨n', get?_set_self a i n' ni hi, ?_⟩
    rw [hprice, ← hmni]
    exact hp
  · exact ⟨m, by rw [get?_set_ne a i j n' hij]; exact hm, hp⟩

theorem linkInv_set (a : List OrderNode) (i : Nat) (ni n' : OrderNode)
    (hL : LinkInv a) (hi : a.get? i = some ni) (hprice : n'.price = ni.price)
    (hnext : ∀ j, n'.next_node = some j → ∃ m, a.get? j = some m ∧ m.price = n'.price)
    (hprev : ∀ j, n'.prev_node = some j → ∃ m, a.get? j = some m ∧ m.price = n'.price) :
    LinkInv (a.set i n') := by
  intro k nk hk
  by_cases hik : i = k
  · subst hik
    rw [get?_set_self a i n' ni hi] at hk
    cases hk
    exact ⟨fun j hj => target_set a i ni n' hi hprice j n'.price (hnext j hj),
           fun j hj => target_set a i ni n' hi hprice j n'.price (hprev j hj)⟩
  · rw [get?_set_ne a i k n' hik] at hk
    obtain ⟨h1, h2⟩ := hL k nk hk
    exact ⟨fun j hj => target_set a i ni n' hi hprice j nk.price (h1 j hj),
           fun j hj => target_set a i ni n' hi hprice j nk.price (h2 j hj)⟩

theorem clearLinks_inv (A : List OrderNode) (ptr : Nat) (o2 : OrderNode) (hL : LinkInv A)
    (ho : A.get? ptr = some o2) :
    LinkInv (A.set ptr { o2 with next_node := none, prev_node := none }) ∧
    ArenaSim A (A.set ptr { o2 with next_node := none, prev_node := none }) :=
  ⟨linkInv_set A ptr o2 _ hL ho rfl (fun _ hj => Option.noConfusion hj)
      (fun _ hj => Option.noConfusion hj),
   arenaSim_set A ptr o2 _ ho rfl⟩

theorem listRemove_inv (arena : List OrderNode) (q : OrderList) (ptr : Nat)
    (node : OrderNode) (h : arena.get? ptr = some node)
    (hL : LinkInv arena) (hQ : QOk arena q node.price) :
    LinkInv (listRemove arena q ptr).1 ∧
    QOk (listRemove arena q ptr).1 (listRemove arena q ptr).2 node.price ∧
    ArenaSim arena (listRemove arena q ptr).1 := by
  obtain ⟨hnextC, hprevC⟩ := hL ptr node h
  cases hp : node.prev_node with
  | none =>
    cases hn : node.next_node with
    | none =>
      obtain ⟨hfin, hsim⟩ := clearLinks_inv arena ptr node hL h
      simp only [listRemove, h, hp, hn]
      exact ⟨hfin, ⟨fun x hx => Option.noConfusion hx, fun x hx => Option.noConfusion hx⟩,
        hsim⟩
    | some nn =>
      obtain ⟨m, hm, hmp⟩ := hnextC nn hn
      have hL1 : LinkInv (arena.set nn { m with prev_node := none }) :=
        linkInv_set arena nn m _ hL hm rfl (fun j hj => (hL nn m hm).1 j hj)
          (fun _ hj => Option.noConfusion hj)
      have hsim1 : ArenaSim arena (arena.set nn { m with prev_node := none }) :=
        arenaSim_set arena nn m _ hm rfl
      obtain ⟨o2, ho2, ho2p⟩ := target_of_sim arena _ hsim1 ptr node.price ⟨node, h, rfl⟩
      obtain ⟨hfin, hsim2⟩ := clearLinks_inv _ ptr o2 hL1 ho2
      simp only [listRemove, h, hp, hn, hm, ho2]
      refine ⟨hfin, ⟨?_, ?_⟩, arenaSim_trans _ _ _ hsim1 hsim2⟩
      · intro x hx
        cases hx
        exact target_of_sim _ _ (arenaSim_trans _ _ _ hsim1 hsim2) nn node.price
          ⟨m, hm, hmp⟩
      · intro x hx
        exact target_of_sim _ _ (arenaSim_trans _ _ _ hsim1 hsim2) x node.price
          (hQ.2 x hx)
  | some p =>
    obtain ⟨pn, hpn, hpnp⟩ := hprevC p hp
    cases hn : node.next_node with
    | none =>
      have hL1 : LinkInv (arena.set p { pn with next_node := none }) :=
        linkInv_set arena p pn _ hL hpn rfl (fun _ hj => Option.noConfusion hj)
          (fun j hj => (hL p pn hpn).2 j hj)
      have hsim1 : ArenaSim arena (arena.set p { pn with next_node := none }) :=
        arenaSim_set arena p pn _ hpn rfl
      obtain ⟨o2, ho2, ho2p⟩ := target_of_sim arena _ hsim1 ptr node.price ⟨node, h, rfl⟩
      obtain ⟨hfin, hsim2⟩ := clearLinks_inv _ ptr o2 hL1 ho2
      simp only [listRemove, h, hp, hn, hpn, ho2]
      refine ⟨hfin, ⟨?_, ?_⟩, arenaSim_trans _ _ _ hsim1 hsim2⟩
      · intro x hx
        exact target_of_sim _ _ (arenaSim_trans _ _ _ hsim1 hsim2) x node.price
          (hQ.1 x hx)
      · intro x hx
        cases hx
        refine target_of_sim _ _ (arenaSim_trans _ _ _ hsim1 hsim2) p node.price
          ⟨pn, hpn, hpnp⟩
    | some nn =>
      obtain ⟨m, hm, hmp⟩ := hnextC nn hn
      have hL1 : LinkInv (arena.set p { pn with next_node := some nn }) :=
        linkInv_set arena p pn _ hL hpn rfl
          (fun j hj => by
            cases hj
            exact ⟨m, hm, by show m.price = pn.price; omega⟩)
          (fun j hj => (hL p pn hpn).2 j hj)
      have hsim1 : ArenaSim arena (arena.set p { pn with next_node := some nn }) :=
        arenaSim_set arena p pn _ hpn rfl
      obtain ⟨m2, hm2, hm2p⟩ := target_of_sim arena _ hsim1 nn node.price ⟨m, hm, hmp⟩
      have hL2 : LinkInv ((arena.set p { pn with next_node := some nn }).set nn
          { m2 with prev_node := some p }) :=
        linkInv_set _ nn m2 _ hL1 hm2 rfl
          (fun j hj => (hL1 nn m2 hm2).1 j hj)
          (fun j hj => by
            cases hj
            exact ⟨{ pn with next_node := some nn },
              get?_set_self arena p _ pn hpn, by show pn.price = m2.price; omega⟩)
      have hsim2 : ArenaSim (arena.set p { pn with next_node := some nn })
          ((arena.set p { pn with next_node := some nn }).set nn
            { m2 with prev_node := some p }) :=
        arenaSim_set _ nn m2 _ hm2 rfl
      have hsim12 := arenaSim_trans _ _ _ hsim1 hsim2
      obtain ⟨o2, ho2, ho2p⟩ := target_of_sim arena _ hsim12 ptr node.price ⟨node, h, rfl⟩
      obtain ⟨hfin, hsim3⟩ := clearLinks_inv _ ptr o2 hL2 ho2
      have hsimAll := arenaSim_trans _ _ _ hsim12 hsim3
      simp only [listRemove, h, hp, hn, hpn, hm2, ho2]
      refine ⟨hfin, ⟨?_, ?_⟩, hsimAll⟩
      · intro x hx
        exact target_of_sim _ _ hsimAll x node.price (hQ.1 x hx)
      · intro x hx
        exact target_of_sim _ _ hsimAll x node.price (hQ.2 x hx)

theorem listAppend_inv (arena : List OrderNode) (q : OrderList) (ptr : Nat)
    (node : OrderNode) (h : arena.get? ptr = some node)
    (hL : LinkInv arena) (hQ : QOk arena q node.price) :
    LinkInv (listAppend arena q ptr).1 ∧
    QOk (listAppend arena q ptr).1 (listAppend arena q ptr).2 node.price ∧
    ArenaSim arena (listAppend arena q ptr).1 := by
  cases ht : q.tail with
  | none =>
    have hL1 : LinkInv (arena.set ptr { node with prev_node := none, next_node := none }) :=
      linkInv_set arena ptr node _ hL h rfl (fun _ hj => Option.noConfusion hj)
        (fun _ hj => Option.noConfusion hj)
    have hsim1 : ArenaSim arena
        (arena.set ptr { node with prev_node := none, next_node := none }) :=
      arenaSim_set arena ptr node _ h rfl
    simp only [listAppend, h, ht]
    refine ⟨hL1, ⟨?_, ?_⟩, hsim1⟩
    · intro x hx
      cases hx
      exact ⟨{ node with prev_node := none, next_node := none },
        get?_set_self arena ptr _ node h, rfl⟩
    · intro x hx
      cases hx
      exact ⟨{ node with prev_node := none, next_node := none },
        get?_set_self arena ptr _ node h, rfl⟩
  | some t =>
    obtain ⟨tn, htn, htnp⟩ := hQ.2 t ht
    have hL1 : LinkInv (arena.set t { tn with next_node := some ptr }) :=
      linkInv_set arena t tn _ hL htn rfl
        (fun j hj => by
          cases hj
          exact ⟨node, h, by show node.price = tn.price; omega⟩)
        (fun j hj => (hL t tn htn).2 j hj)
    have hsim1 : ArenaSim arena (arena.set t { tn with next_node := some ptr }) :=
      arenaSim_set arena t tn _ htn rfl
    obtain ⟨o2, ho2, ho2p⟩ := target_of_sim arena _ hsim1 ptr node.price ⟨node, h, rfl⟩
    have hL2 : LinkInv ((arena.set t { tn with next_node := some ptr }).set ptr
        { o2 with prev_node := some t, next_node := none }) :=
      linkInv_set _ ptr o2 _ hL1 ho2 rfl
        (fun _ hj => Option.noConfusion hj)
        (fun j hj => by
          cases hj
          exact ⟨{ tn with next_node := some ptr },
            get?_set_self arena t _ tn htn, by show tn.price = o2.price; omega⟩)
    have hsim2 : ArenaSim (arena.set t { tn with next_node := some ptr })
        ((arena.set t { tn with next_node := some ptr }).set ptr
          { o2 with prev_node := some t, next_node := none }) :=
      arenaSim_set _ ptr o2 _ ho2 rfl
    have hsimAll := arenaSim_trans _ _ _ hsim1 hsim2
    simp only [listAppend, h, ht, htn, ho2]
    refine ⟨hL2, ⟨?_, ?_⟩, hsimAll⟩
    · intro x hx
      exact target_of_sim _ _ hsimAll x node.price (hQ.1 x hx)
    · intro x hx
      cases hx
      exact ⟨{ o2 with prev_node := some t, next_node := none },
        get?_set_self _ ptr _ o2 ho2, by show o2.price = node.price; omega⟩

theorem linkInv_append (a : List OrderNode) (x : OrderNode) (hL : LinkInv a)
    (hx1 : x.next_node = none) (hx2 : x.prev_node = none) : LinkInv (a ++ [x]) := by
  intro i n hn
  by_cases hia : i < a.length
  · have hni : a.get? i = some n := by rw [List.get?_append hia] at hn; exact hn
    obtain ⟨h1, h2⟩ := hL i n hni
    refine ⟨fun j hj => ?_, fun j hj => ?_⟩
    · obtain ⟨m, hm1, hm2⟩ := h1 j hj
      exact ⟨m, get?_append_some a [x] j m hm1, hm2⟩
    · obtain ⟨m, hm1, hm2⟩ := h2 j hj
      exact ⟨m, get?_append_some a [x] j m hm1, hm2⟩
  · by_cases hia2 : i = a.length
    · subst hia2
      rw [List.get?_concat_length] at hn
      cases hn
      exact ⟨fun j hj => absurd hj (by rw [hx1]; exact Option.noConfusion),
             fun j hj => absurd hj (by rw [hx2]; exact Option.noConfusion)⟩
    · have : (a ++ [x]).get? i = none := by
        apply List.get?_eq_none.mpr
        simp only [List.length_append, List.length_singleton]
        omega
      rw [this] at hn
      exact Option.noConfusion hn

theorem qok_append (a : List OrderNode) (x : OrderNode) (q : OrderList) (p : Int)
    (h : QOk a q p) : QOk (a ++ [x]) q p := by
  refine ⟨fun y hy => ?_, fun y hy => ?_⟩
  · obtain ⟨m, hm1, hm2⟩ := h.1 y hy
    exact ⟨m, get?_append_some a [x] y m hm1, hm2⟩
  · obtain ⟨m, hm1, hm2⟩ := h.2 y hy
    exact ⟨m, get?_append_some a [x] y m hm1, hm2⟩

theorem levelsOk_append (a : List OrderNode) (x : OrderNode)
    (levels : List (Int × OrderList)) (h : LevelsOk a levels) :
    LevelsOk (a ++ [x]) levels :=
  fun p q hm => qok_append a x q p (h p q hm)

theorem listRemove_inv2 (arena : List OrderNode) (q : OrderList) (ptr : Nat)
    (node : OrderNode) (P : Int) (h : arena.get? ptr = some node)
    (hnp : node.price = P) (hL : LinkInv arena) (hQ : QOk arena q P) :
    LinkInv (listRemove arena q ptr).1 ∧
    QOk (listRemove arena q ptr).1 (listRemove arena q ptr).2 P ∧
    ArenaSim arena (listRemove arena q ptr).1 := by
  subst hnp
  exact listRemove_inv arena q ptr node h hL hQ

theorem buyInner_inv (fuel : Nat) (arena : List OrderNode) (q : OrderList)
    (orders : List (Int × Nat)) (pos : List (Int × Int))
    (rem order_id user_id askPrice : Int) (acc : List Trade)
    (hL : LinkInv arena) (hQ : QOk arena q askPrice) :
    LinkInv (buyInner fuel arena q orders pos rem order_id user_id askPrice acc).1 ∧
    QOk (buyInner fuel arena q orders pos rem order_id user_id askPrice acc).1
      (buyInner fuel arena q orders pos rem order_id user_id askPrice acc).2.1 askPrice ∧
    ArenaSim arena (buyInner fuel arena q orders pos rem order_id user_id askPrice acc).1 ∧
    ∀ t ∈ (buyInner fuel arena q orders pos rem order_id user_id askPrice acc).2.2.2.2.2,
      t ∈ acc ∨ (t.price = askPrice ∧ ∃ i n, arena.get? i = some n ∧
        n.order_id = t.maker_order_id ∧ n.price = askPrice) := by
  induction fuel generalizing arena q orders pos rem acc with
  | zero => exact ⟨hL, hQ, arenaSim_refl _, fun t ht => Or.inl ht⟩
  | succ n ih =>
    rw [buyInner]
    by_cases h : rem > 0
    · simp only [if_pos h]
      split
      · exact ⟨hL, hQ, arenaSim_refl _, fun t ht => Or.inl ht⟩
      · next mptr heq =>
        split
        · exact ⟨hL, hQ, arenaSim_refl _, fun t ht => Or.inl ht⟩
        · next maker hamaker =>
          obtain ⟨maker0, hm0, hm0p⟩ := hQ.1 mptr heq
          have hmakerPrice : maker.price = askPrice := by
            rw [hamaker] at hm0
            cases hm0
            exact hm0p
          have hL2 : LinkInv (arena.set mptr
              { maker with quantity := maker.quantity - min rem maker.quantity }) :=
            linkInv_set arena mptr maker _ hL hamaker rfl
              (fun j hj => (hL mptr maker hamaker).1 j hj)
              (fun j hj => (hL mptr maker hamaker).2 j hj)
          have hsim2 : ArenaSim arena (arena.set mptr
              { maker with quantity := maker.quantity - min rem maker.quantity }) :=
            arenaSim_set arena mptr maker _ hamaker rfl
          have hQ2 : QOk (arena.set mptr
              { maker with quantity := maker.quantity - min rem maker.quantity })
              { q with total_volume := q.total_volume - min rem maker.quantity } askPrice :=
            qok_of_sim _ _ q askPrice hsim2 hQ
          split
          · obtain ⟨hL3, hQ3, hsim3⟩ := listRemove_inv2
              (arena.set mptr { maker with quantity := maker.quantity - min rem maker.quantity })
              { q with total_volume := q.total_volume - min rem maker.quantity }
              mptr { maker with quantity := maker.quantity - min rem maker.quantity }
              askPrice (get?_set_self arena mptr _ maker hamaker) hmakerPrice hL2 hQ2
            obtain ⟨ihL, ihQ, ihSim, ihW⟩ := ih _ _ (aerase orders maker.order_id) _ _ _ hL3 hQ3
            refine ⟨ihL, ihQ,
              arenaSim_trans _ _ _ (arenaSim_trans _ _ _ hsim2 hsim3) ihSim, ?_⟩
            intro t ht
            rcases ihW t ht with hin | ⟨hpr, i, nn, hget, hoid, hprice⟩
            · rcases List.mem_append.mp hin with hin | hin
              · exact Or.inl hin
              · rcases List.mem_singleton.mp hin with rfl
                exact Or.inr ⟨rfl, mptr, maker, hamaker, rfl, hmakerPrice⟩
            · exact Or.inr ⟨hpr, witness_of_sim _ _
                (arenaSim_trans _ _ _ hsim2 hsim3) _ _ ⟨i, nn, hget, hoid, hprice⟩⟩
          · obtain ⟨ihL, ihQ, ihSim, ihW⟩ := ih _ _ orders _ _ _ hL2 hQ2
            refine ⟨ihL, ihQ, arenaSim_trans _ _ _ hsim2 ihSim, ?_⟩
            intro t ht
            rcases ihW t ht with hin | ⟨hpr, i, nn, hget, hoid, hprice⟩
            · rcases List.mem_append.mp hin with hin | hin
              · exact Or.inl hin
              · rcases List.mem_singleton.mp hin with rfl
                exact Or.inr ⟨rfl, mptr, maker, hamaker, rfl, hmakerPrice⟩
            · exact Or.inr ⟨hpr, witness_of_sim _ _ hsim2 _ _ ⟨i, nn, hget, hoid, hprice⟩⟩
    · simp only [if_neg h]
      exact ⟨hL, hQ, arenaSim_refl _, fun t ht => Or.inl ht⟩

theorem sellInner_inv (fuel : Nat) (arena : List OrderNode) (q : OrderList)
    (orders : List (Int × Nat)) (pos : List (Int × Int))
    (rem order_id user_id bidPrice : Int) (acc : List Trade)
    (hL : LinkInv arena) (hQ : QOk arena q bidPrice) :
    LinkInv (sellInner fuel arena q orders pos rem order_id user_id bidPrice acc).1 ∧
    QOk (sellInner fuel arena q orders pos rem order_id user_id bidPrice acc).1
      (sellInner fuel arena q orders pos rem order_id user_id bidPrice acc).2.1 bidPrice ∧
    ArenaSim arena (sellInner fuel arena q orders pos rem order_id user_id bidPrice acc).1 ∧
    ∀ t ∈ (sellInner fuel arena q orders pos rem order_id user_id bidPrice acc).2.2.2.2.2,
      t ∈ acc ∨ (t.price = bidPrice ∧ ∃ i n, arena.get? i = some n ∧
        n.order_id = t.maker_order_id ∧ n.price = bidPrice) := by
  induction fuel generalizing arena q orders pos rem acc with
  | zero => exact ⟨hL, hQ, arenaSim_refl _, fun t ht => Or.inl ht⟩
  | succ n ih =>
    rw [sellInner]
    by_cases h : rem > 0
    · simp only [if_pos h]
      split
      · exact ⟨hL, hQ, arenaSim_refl _, fun t ht => Or.inl ht⟩
      · next mptr heq =>
        split
        · exact ⟨hL, hQ, arenaSim_refl _, fun t ht => Or.inl ht⟩
        · next maker hamaker =>
          obtain ⟨maker0, hm0, hm0p⟩ := hQ.1 mptr heq
          have hmakerPrice : maker.price = bidPrice := by
            rw [hamaker] at hm0
            cases hm0
            exact hm0p
          have hL2 : LinkInv (arena.set mptr
              { maker with quantity := maker.quantity - min rem maker.quantity }) :=
            linkInv_set arena mptr maker _ hL hamaker rfl
              (fun j hj => (hL mptr maker hamaker).1 j hj)
              (fun j hj => (hL mptr maker hamaker).2 j hj)
          have hsim2 : ArenaSim arena (arena.set mptr
              { maker with quantity := maker.quantity - min rem maker.quantity }) :=
            arenaSim_set arena mptr maker _ hamaker rfl
          have hQ2 : QOk (arena.set mptr
              { maker with quantity := maker.quantity - min rem maker.quantity })
              { q with total_volume := q.total_volume - min rem maker.quantity } bidPrice :=
            qok_of_sim _ _ q bidPrice hsim2 hQ
          split
          · obtain ⟨hL3, hQ3, hsim3⟩ := listRemove_inv2
              (arena.set mptr { maker with quantity := maker.quantity - min rem maker.quantity })
              { q with total_volume := q.total_volume - min rem maker.quantity }
              mptr { maker with quantity := maker.quantity - min rem maker.quantity }
              bidPrice (get?_set_self arena mptr _ maker hamaker) hmakerPrice hL2 hQ2
            obtain ⟨ihL, ihQ, ihSim, ihW⟩ := ih _ _ (aerase orders maker.order_id) _ _ _ hL3 hQ3
            refine ⟨ihL, ihQ,
              arenaSim_trans _ _ _ (arenaSim_trans _ _ _ hsim2 hsim3) ihSim, ?_⟩
            intro t ht
            rcases ihW t ht with hin | ⟨hpr, i, nn, hget, hoid, hprice⟩
            · rcases List.mem_append.mp hin with hin | hin
              · exact Or.inl hin
              · rcases List.mem_singleton.mp hin with rfl
                exact Or.inr ⟨rfl, mptr, maker, hamaker, rfl, hmakerPrice⟩
            · exact Or.inr ⟨hpr, witness_of_sim _ _
                (arenaSim_trans _ _ _ hsim2 hsim3) _ _ ⟨i, nn, hget, hoid, hprice⟩⟩
          · obtain ⟨ihL, ihQ, ihSim, ihW⟩ := ih _ _ orders _ _ _ hL2 hQ2
            refine ⟨ihL, ihQ, arenaSim_trans _ _ _ hsim2 ihSim, ?_⟩
            intro t ht
            rcases ihW t ht with hin | ⟨hpr, i, nn, hget, hoid, hprice⟩
            · rcases List.mem_append.mp hin with hin | hin
              · exact Or.inl hin
              · rcases List.mem_singleton.mp hin with rfl
                exact Or.inr ⟨rfl, mptr, maker, hamaker, rfl, hmakerPrice⟩
            · exact Or.inr ⟨hpr, witness_of_sim _ _ hsim2 _ _ ⟨i, nn, hget, hoid, hprice⟩⟩
    · simp only [if_neg h]
      exact ⟨hL, hQ, arenaSim_refl _, fun t ht => Or.inl ht⟩

theorem buyOuter_inv (fuel : Nat) (b : OrderBook) (price rem order_id user_id : Int)
    (acc : List Trade) (hA : ArenaInv b) :
    ArenaInv (buyOuter fuel b price rem order_id user_id acc).1 ∧
    ArenaSim b.arena ((buyOuter fuel b price rem order_id user_id acc).1).arena ∧
    ∀ t ∈ (buyOuter fuel b price rem order_id user_id acc).2.2,
      t ∈ acc ∨ ((∃ i n, b.arena.get? i = some n ∧ n.order_id = t.maker_order_id ∧
        n.price = t.price) ∧ t.price ≤ price) := by
  induction fuel generalizing b rem acc with
  | zero => exact ⟨hA, arenaSim_refl _, fun t ht => Or.inl ht⟩
  | succ n ih =>
    rw [buyOuter]
    by_cases h : rem > 0
    · simp only [if_pos h]
      cases hh : b.asks_heap.head? with
      | none => exact ⟨hA, arenaSim_refl _, fun t ht => Or.inl ht⟩
      | some bestAsk =>
        by_cases hp : price < bestAsk
        · simp only [if_pos hp]
          exact ⟨hA, arenaSim_refl _, fun t ht => Or.inl ht⟩
        · simp only [if_neg hp]
          by_cases hm : (alookup b.asks bestAsk).isNone
          · simp only [if_pos hm]
            exact ih { b with asks_heap := b.asks_heap.tail } rem acc
              ⟨hA.link, hA.bidsOk, hA.asksOk⟩
          · simp only [if_neg hm]
            obtain ⟨q0, hsome⟩ : ∃ q0, alookup b.asks bestAsk = some q0 := by
              cases hl : alookup b.asks bestAsk with
              | none => rw [hl] at hm; simp at hm
              | some v => exact ⟨v, rfl⟩
            have hQ0 : QOk b.arena q0 bestAsk :=
              hA.asksOk bestAsk q0 (alookup_mem _ _ _ hsome)
            simp only [hsome, Option.getD_some]
            obtain ⟨iL, iQ, iSim, iW⟩ := buyInner_inv (n + 1) b.arena q0 b.orders
              b.positions rem order_id user_id bestAsk acc hA.link hQ0
            by_cases hcnt : (buyInner (n + 1) b.arena q0 b.orders b.positions rem
                order_id user_id bestAsk acc).2.1.count = 0
            · simp only [hcnt, if_pos rfl]
              have hA3 : ArenaInv
                  { b with
                    arena := (buyInner (n + 1) b.arena q0 b.orders b.positions rem
                      order_id user_id bestAsk acc).1,
                    orders := (buyInner (n + 1) b.arena q0 b.orders b.positions rem
                      order_id user_id bestAsk acc).2.2.1,
                    positions := (buyInner (n + 1) b.arena q0 b.orders b.positions rem
                      order_id user_id bestAsk acc).2.2.2.1,
                    asks := aerase b.asks bestAsk,
                    asks_heap := b.asks_heap.tail } := by
                refine ⟨iL, levelsOk_of_sim _ _ _ iSim hA.bidsOk, ?_⟩
                intro p qq hmem
                exact qok_of_sim _ _ qq p iSim (hA.asksOk p qq (mem_aerase_sub _ _ _ hmem))
              obtain ⟨rA, rSim, rW⟩ := ih _ _ _ hA3
              refine ⟨rA, arenaSim_trans _ _ _ iSim rSim, ?_⟩
              intro t ht
              rcases rW t ht with hin | ⟨⟨i, nn, hget, hoid, hprice⟩, hle⟩
              · rcases iW t hin with hin2 | ⟨hpr, i, nn, hget, hoid, hprice⟩
                · exact Or.inl hin2
                · refine Or.inr ⟨⟨i, nn, hget, hoid, by omega⟩, by omega⟩
              · exact Or.inr ⟨witness_of_sim _ _ iSim _ _ ⟨i, nn, hget, hoid, hprice⟩, hle⟩
            · simp only [if_neg hcnt]
              have hA3 : ArenaInv
                  { b with
                    arena := (buyInner (n + 1) b.arena q0 b.orders b.positions rem
                      order_id user_id bestAsk acc).1,
                    orders := (buyInner (n + 1) b.arena q0 b.orders b.positions rem
                      order_id user_id bestAsk acc).2.2.1,
                    positions := (buyInner (n + 1) b.arena q0 b.orders b.positions rem
                      order_id user_id bestAsk acc).2.2.2.1,
                    asks := aset b.asks bestAsk (buyInner (n + 1) b.arena q0 b.orders
                      b.positions rem order_id user_id bestAsk acc).2.1 } := by
                refine ⟨iL, levelsOk_of_sim _ _ _ iSim hA.bidsOk, ?_⟩
                intro p qq hmem
                rcases mem_aset_elim _ _ _ _ hmem with hmem | hmem
                · cases hmem
                  exact iQ
                · exact qok_of_sim _ _ qq p iSim (hA.asksOk p qq hmem)
              obtain ⟨rA, rSim, rW⟩ := ih _ _ _ hA3
              refine ⟨rA, arenaSim_trans _ _ _ iSim rSim, ?_⟩
              intro t ht
              rcases rW t ht with hin | ⟨⟨i, nn, hget, hoid, hprice⟩, hle⟩
              · rcases iW t hin with hin2 | ⟨hpr, i, nn, hget, hoid, hprice⟩
                · exact Or.inl hin2
                · refine Or.inr ⟨⟨i, nn, hget, hoid, by omega⟩, by omega⟩
              · exact Or.inr ⟨witness_of_sim _ _ iSim _ _ ⟨i, nn, hget, hoid, hprice⟩, hle⟩
    · simp only [if_neg h]
      exact ⟨hA, arenaSim_refl _, fun t ht => Or.inl ht⟩

theorem sellOuter_inv (fuel : Nat) (b : OrderBook) (price rem order_id user_id : Int)
    (acc : List Trade) (hA : ArenaInv b) :
    ArenaInv (sellOuter fuel b price rem order_id user_id acc).1 ∧
    ArenaSim b.arena ((sellOuter fuel b price rem order_id user_id acc).1).arena ∧
    ∀ t ∈ (sellOuter fuel b price rem order_id user_id acc).2.2,
      t ∈ acc ∨ ((∃ i n, b.arena.get? i = some n ∧ n.order_id = t.maker_order_id ∧
        n.price = t.price) ∧ price ≤ t.price) := by
  induction fuel generalizing b rem acc with
  | zero => exact ⟨hA, arenaSim_refl _, fun t ht => Or.inl ht⟩
  | succ n ih =>
    rw [sellOuter]
    by_cases h : rem > 0
    · simp only [if_pos h]
      cases hh : b.bids_heap.head? with
      | none => exact ⟨hA, arenaSim_refl _, fun t ht => Or.inl ht⟩
      | some negBid =>
        by_cases hp : price > -negBid
        · simp only [if_pos hp]
          exact ⟨hA, arenaSim_refl _, fun t ht => Or.inl ht⟩
        · simp only [if_neg hp]
          by_cases hm : (alookup b.bids (-negBid)).isNone
          · simp only [if_pos hm]
            exact ih { b with bids_heap := b.bids_heap.tail } rem acc
              ⟨hA.link, hA.bidsOk, hA.asksOk⟩
          · simp only [if_neg hm]
            obtain ⟨q0, hsome⟩ : ∃ q0, alookup b.bids (-negBid) = some q0 := by
              cases hl : alookup b.bids (-negBid) with
              | none => rw [hl] at hm; simp at hm
              | some v => exact ⟨v, rfl⟩
            have hQ0 : QOk b.arena q0 (-negBid) :=
              hA.bidsOk (-negBid) q0 (alookup_mem _ _ _ hsome)
            simp only [hsome, Option.getD_some]
            obtain ⟨iL, iQ, iSim, iW⟩ := sellInner_inv (n + 1) b.arena q0 b.orders
              b.positions rem order_id user_id (-negBid) acc hA.link hQ0
            by_cases hcnt : (sellInner (n + 1) b.arena q0 b.orders b.positions rem
                order_id user_id (-negBid) acc).2.1.count = 0
            · simp only [hcnt, if_pos rfl]
              have hA3 : ArenaInv
                  { b with
                    arena := (sellInner (n + 1) b.arena q0 b.orders b.positions rem
                      order_id user_id (-negBid) acc).1,
                    orders := (sellInner (n + 1) b.arena q0 b.orders b.positions rem
                      order_id user_id (-negBid) acc).2.2.1,
                    positions := (sellInner (n + 1) b.arena q0 b.orders b.positions rem
                      order_id user_id (-negBid) acc).2.2.2.1,
                    bids := aerase b.bids (-negBid),
                    bids_heap := b.bids_heap.tail } := by
                refine ⟨iL, ?_, levelsOk_of_sim _ _ _ iSim hA.asksOk⟩
                intro p qq hmem
                exact qok_of_sim _ _ qq p iSim (hA.bidsOk p qq (mem_aerase_sub _ _ _ hmem))
              obtain ⟨rA, rSim, rW⟩ := ih _ _ _ hA3
              refine ⟨rA, arenaSim_trans _ _ _ iSim rSim, ?_⟩
              intro t ht
              rcases rW t ht with hin | ⟨⟨i, nn, hget, hoid, hprice⟩, hle⟩
              · rcases iW t hin with hin2 | ⟨hpr, i, nn, hget, hoid, hprice⟩
                · exact Or.inl hin2
                · refine Or.inr ⟨⟨i, nn, hget, hoid, by omega⟩, by omega⟩
              · exact Or.inr ⟨witness_of_sim _ _ iSim _ _ ⟨i, nn, hget, hoid, hprice⟩, hle⟩
            · simp only [if_neg hcnt]
              have hA3 : ArenaInv
                  { b with
                    arena := (sellInner (n + 1) b.arena q0 b.orders b.positions rem
                      order_id user_id (-negBid) acc).1,
                    orders := (sellInner (n + 1) b.arena q0 b.orders b.positions rem
                      order_id user_id (-negBid) acc).2.2.1,
                    positions := (sellInner (n + 1) b.arena q0 b.orders b.positions rem
                      order_id user_id (-negBid) acc).2.2.2.1,
                    bids := aset b.bids (-negBid) (sellInner (n + 1) b.arena q0 b.orders
                      b.positions rem order_id user_id (-negBid) acc).2.1 } := by
                refine ⟨iL, ?_, levelsOk_of_sim _ _ _ iSim hA.asksOk⟩
                intro p qq hmem
                rcases mem_aset_elim _ _ _ _ hmem with hmem | hmem
                · cases hmem
                  exact iQ
                · exact qok_of_sim _ _ qq p iSim (hA.bidsOk p qq hmem)
              obtain ⟨rA, rSim, rW⟩ := ih _ _ _ hA3
              refine ⟨rA, arenaSim_trans _ _ _ iSim rSim, ?_⟩
              intro t ht
              rcases rW t ht with hin | ⟨⟨i, nn, hget, hoid, hprice⟩, hle⟩
              · rcases iW t hin with hin2 | ⟨hpr, i, nn, hget, hoid, hprice⟩
                · exact Or.inl hin2
                · refine Or.inr ⟨⟨i, nn, hget, hoid, by omega⟩, by omega⟩
              · exact Or.inr ⟨witness_of_sim _ _ iSim _ _ ⟨i, nn, hget, hoid, hprice⟩, hle⟩
    · simp only [if_neg h]
      exact ⟨hA, arenaSim_refl _, fun t ht => Or.inl ht⟩

theorem qok_empty (arena : List OrderNode) (p : Int) : QOk arena {} p :=
  ⟨fun _ hx => Option.noConfusion hx, fun _ hx => Option.noConfusion hx⟩

theorem level_insert_inv (arena : List OrderNode) (node : OrderNode) (q : OrderList)
    (hL : LinkInv arena) (hq : QOk arena q node.price)
    (hnx : node.next_node = none) (hpv : node.prev_node = none) :
    LinkInv (listAppend (arena ++ [node]) q arena.length).1 ∧
    QOk (listAppend (arena ++ [node]) q arena.length).1
      (listAppend (arena ++ [node]) q arena.length).2 node.price ∧
    ArenaSim (arena ++ [node]) (listAppend (arena ++ [node]) q arena.length).1 :=
  listAppend_inv (arena ++ [node]) q arena.length node
    (List.get?_concat_length arena node)
    (linkInv_append arena node hL hnx hpv)
    (qok_append arena node q node.price hq)

theorem addToBook_arenaInv (b : OrderBook) (side : String)
    (price quantity order_id user_id : Int) (b2 : OrderBook)
    (hA : ArenaInv b) (h : addToBook b side price quantity order_id user_id = .ok b2) :
    ArenaInv b2 := by
  unfold addToBook at h
  by_cases ha : b.active
  · rw [ha] at h
    simp only [Bool.not_true, Bool.false_eq_true, if_false] at h
    by_cases h1 : side = "buy"
    · rw [if_pos h1] at h
      by_cases hc : (alookup b.bids price).isNone = true
      · rw [if_pos hc, if_pos hc] at h
        rw [alookup_aset_self] at h
        simp only [Option.getD_some] at h
        cases h
        obtain ⟨rL, rQ, rSim⟩ := level_insert_inv b.arena
          { order_id := order_id, user_id := user_id, price := price,
            quantity := quantity, timestamp := b.clock } {} hA.link
          (qok_empty _ _) rfl rfl
        refine ⟨rL, ?_, levelsOk_of_sim _ _ _ rSim (levelsOk_append _ _ _ hA.asksOk)⟩
        intro p qq hmem
        rcases mem_aset_elim _ _ _ _ hmem with heq | hmem2
        · cases heq
          exact rQ
        · rcases mem_aset_elim _ _ _ _ hmem2 with heq2 | hmem3
          · cases heq2
            exact qok_empty _ _
          · exact qok_of_sim _ _ _ _ rSim (qok_append _ _ _ _ (hA.bidsOk p qq hmem3))
      · rw [if_neg hc, if_neg hc] at h
        obtain ⟨q0, hsome⟩ : ∃ q0, alookup b.bids price = some q0 := by
          cases hl : alookup b.bids price with
          | none => rw [hl] at hc; simp at hc
          | some v => exact ⟨v, rfl⟩
        rw [hsome] at h
        simp only [Option.getD_some] at h
        cases h
        obtain ⟨rL, rQ, rSim⟩ := level_insert_inv b.arena
          { order_id := order_id, user_id := user_id, price := price,
            quantity := quantity, timestamp := b.clock } q0 hA.link
          (hA.bidsOk price q0 (alookup_mem _ _ _ hsome)) rfl rfl
        refine ⟨rL, ?_, levelsOk_of_sim _ _ _ rSim (levelsOk_append _ _ _ hA.asksOk)⟩
        intro p qq hmem
        rcases mem_aset_elim _ _ _ _ hmem with heq | hmem2
        · cases heq
          exact rQ
        · exact qok_of_sim _ _ _ _ rSim (qok_append _ _ _ _ (hA.bidsOk p qq hmem2))
    · by_cases h2 : side = "sell"
      · rw [if_neg h1, if_pos h2] at h
        by_cases hc : (alookup b.asks price).isNone = true
        · rw [if_pos hc, if_pos hc] at h
          rw [alookup_aset_self] at h
          simp only [Option.getD_some] at h
          cases h
          obtain ⟨rL, rQ, rSim⟩ := level_insert_inv b.arena
            { order_id := order_id, user_id := user_id, price := price,
              quantity := quantity, timestamp := b.clock } {} hA.link
            (qok_empty _ _) rfl rfl
          refine ⟨rL, levelsOk_of_sim _ _ _ rSim (levelsOk_append _ _ _ hA.bidsOk), ?_⟩
          intro p qq hmem
          rcases mem_aset_elim _ _ _ _ hmem with heq | hmem2
          · cases heq
            exact rQ
          · rcases mem_aset_elim _ _ _ _ hmem2 with heq2 | hmem3
            · cases heq2
              exact qok_empty _ _
            · exact qok_of_sim _ _ _ _ rSim (qok_append _ _ _ _ (hA.asksOk p qq hmem3))
        · rw [if_neg hc, if_neg hc] at h
          obtain ⟨q0, hsome⟩ : ∃ q0, alookup b.asks price = some q0 := by
            cases hl : alookup b.asks price with
            | none => rw [hl] at hc; simp at hc
            | some v => exact ⟨v, rfl⟩
          rw [hsome] at h
          simp only [Option.getD_some] at h
          cases h
          obtain ⟨rL, rQ, rSim⟩ := level_insert_inv b.arena
            { order_id := order_id, user_id := user_id, price := price,
              quantity := quantity, timestamp := b.clock } q0 hA.link
            (hA.asksOk price q0 (alookup_mem _ _ _ hsome)) rfl rfl
          refine ⟨rL, levelsOk_of_sim _ _ _ rSim (levelsOk_append _ _ _ hA.bidsOk), ?_⟩
          intro p qq hmem
          rcases mem_aset_elim _ _ _ _ hmem with heq | hmem2
          · cases heq
            exact rQ
          · exact qok_of_sim _ _ _ _ rSim (qok_append _ _ _ _ (hA.asksOk p qq hmem2))
      · rw [if_neg h1, if_neg h2] at h
        cases h
        exact ⟨linkInv_append _ _ hA.link rfl rfl,
          levelsOk_append _ _ _ hA.bidsOk, levelsOk_append _ _ _ hA.asksOk⟩
  · have ha2 : b.active = false := by
      cases hb : b.active
      · rfl
      · exact absurd hb ha
    rw [ha2] at h
    simp at h

theorem cancelOrder_arenaInv (b : OrderBook) (oid : Int) (hA : ArenaInv b) :
    ArenaInv (cancelOrder b oid) := by
  unfold cancelOrder
  split
  · exact hA
  · split
    · exact ⟨hA.link, hA.bidsOk, hA.asksOk⟩
    · next order horder =>
      dsimp only
      split
      · next hsome =>
        obtain ⟨q0, hsome2⟩ : ∃ q0, alookup b.bids order.price = some q0 := by
          cases hl : alookup b.bids order.price with
          | none => rw [hl] at hsome; simp at hsome
          | some v => exact ⟨v, rfl⟩
        simp only [hsome2, Option.getD_some]
        obtain ⟨rL, rQ, rSim⟩ := listRemove_inv2 b.arena q0 _ order order.price horder rfl
          hA.link (hA.bidsOk order.price q0 (alookup_mem _ _ _ hsome2))
        split
        · refine ⟨rL, ?_, levelsOk_of_sim _ _ _ rSim hA.asksOk⟩
          intro p qq hmem
          exact qok_of_sim _ _ _ _ rSim (hA.bidsOk p qq (mem_aerase_sub _ _ _ hmem))
        · refine ⟨rL, ?_, levelsOk_of_sim _ _ _ rSim hA.asksOk⟩
          intro p qq hmem
          rcases mem_aset_elim _ _ _ _ hmem with heq | hmem2
          · cases heq
            exact rQ
          · exact qok_of_sim _ _ _ _ rSim (hA.bidsOk p qq hmem2)
      · split
        · next hsome =>
          obtain ⟨q0, hsome2⟩ : ∃ q0, alookup b.asks order.price = some q0 := by
            cases hl : alookup b.asks order.price with
            | none => rw [hl] at hsome; simp at hsome
            | some v => exact ⟨v, rfl⟩
          simp only [hsome2, Option.getD_some]
          obtain ⟨rL, rQ, rSim⟩ := listRemove_inv2 b.arena q0 _ order order.price horder
            rfl hA.link (hA.asksOk order.price q0 (alookup_mem _ _ _ hsome2))
          split
          · refine ⟨rL, levelsOk_of_sim _ _ _ rSim hA.bidsOk, ?_⟩
            intro p qq hmem
            exact qok_of_sim _ _ _ _ rSim (hA.asksOk p qq (mem_aerase_sub _ _ _ hmem))
          · refine ⟨rL, levelsOk_of_sim _ _ _ rSim hA.bidsOk, ?_⟩
            intro p qq hmem
            rcases mem_aset_elim _ _ _ _ hmem with heq | hmem2
            · cases heq
              exact rQ
            · exact qok_of_sim _ _ _ _ rSim (hA.asksOk p qq hmem2)
        · exact ⟨hA.link, hA.bidsOk, hA.asksOk⟩

theorem foldl_cancel_arenaInv (ids : List Int) (b : OrderBook) (hA : ArenaInv b) :
    ArenaInv (ids.foldl cancelOrder b) := by
  induction ids generalizing b with
  | nil => exact hA
  | cons x xs ih => exact ih (cancelOrder b x) (cancelOrder_arenaInv b x hA)

theorem settleMarket_arenaInv (b : OrderBook) (t : Int) (hA : ArenaInv b) :
    ArenaInv (settleMarket b t).1 := by
  have h2 := foldl_cancel_arenaInv
    (({ b with active := false } : OrderBook).orders.map Prod.fst)
    { b with active := false } ⟨hA.link, hA.bidsOk, hA.asksOk⟩
  exact ⟨h2.link, h2.bidsOk, h2.asksOk⟩

theorem processOrder_arenaInv (fuel : Nat) (b : OrderBook) (side : String)
    (price qty oid uid : Int) (res : OrderBook × List Trade) (hA : ArenaInv b)
    (h : processOrder fuel b side price qty oid uid = .ok res) : ArenaInv res.1 := by
  unfold processOrder at h
  by_cases ha : b.active
  · rw [ha] at h
    simp only [Bool.not_true, Bool.false_eq_true, if_false] at h
    by_cases h1 : side = "buy"
    · rw [if_pos h1] at h
      have hAr := (buyOuter_inv fuel b price qty oid uid [] hA).1
      by_cases hgt : (buyOuter fuel b price qty oid uid []).2.1 > 0
      · rw [if_pos hgt] at h
        cases hab : addToBook (buyOuter fuel b price qty oid uid []).1 side price
            (buyOuter fuel b price qty oid uid []).2.1 oid uid with
        | ok b2x =>
          rw [hab] at h
          change Except.ok (b2x, (buyOuter fuel b price qty oid uid []).2.2)
            = Except.ok res at h
          injection h with h2
          rw [← h2]
          exact addToBook_arenaInv _ _ _ _ _ _ _ hAr hab
        | error e =>
          rw [hab] at h
          change Except.error e = Except.ok res at h
          exact Except.noConfusion h
      · rw [if_neg hgt] at h
        injection h with h2
        rw [← h2]
        exact hAr
    · rw [if_neg h1] at h
      by_cases h2s : side = "sell"
      · rw [if_pos h2s] at h
        have hAr := (sellOuter_inv fuel b price qty oid uid [] hA).1
        by_cases hgt : (sellOuter fuel b price qty oid uid []).2.1 > 0
        · rw [if_pos hgt] at h
          cases hab : addToBook (sellOuter fuel b price qty oid uid []).1 side price
              (sellOuter fuel b price qty oid uid []).2.1 oid uid with
          | ok b2x =>
            rw [hab] at h
            change Except.ok (b2x, (sellOuter fuel b price qty oid uid []).2.2)
              = Except.ok res at h
            injection h with h2
            rw [← h2]
            exact addToBook_arenaInv _ _ _ _ _ _ _ hAr hab
          | error e =>
            rw [hab] at h
            change Except.error e = Except.ok res at h
            exact Except.noConfusion h
        · rw [if_neg hgt] at h
          injection h with h2
          rw [← h2]
          exact hAr
      · rw [if_neg h2s] at h
        dsimp only at h
        by_cases hgt : qty > 0
        · rw [if_pos hgt] at h
          cases hab : addToBook b side price qty oid uid with
          | ok b2x =>
            rw [hab] at h
            change Except.ok (b2x, ([] : List Trade)) = Except.ok res at h
            injection h with h2
            rw [← h2]
            exact addToBook_arenaInv _ _ _ _ _ _ _ hA hab
          | error e =>
            rw [hab] at h
            change Except.error e = Except.ok res at h
            exact Except.noConfusion h
        · rw [if_neg hgt] at h
          injection h with h2
          rw [← h2]
          exact hA
  · have ha2 : b.active = false := by
      cases hb : b.active
      · rfl
      · exact absurd hb ha
    rw [ha2] at h
    simp at h

theorem applyOp_arenaInv (b : OrderBook) (op : BookOp) (hA : ArenaInv b) :
    ArenaInv (applyOp b op) := by
  cases op with
  | process fuel side price qty oid uid =>
    unfold applyOp
    cases hp : processOrder fuel b side price qty oid uid with
    | ok r =>
      simp only [hp]
      exact processOrder_arenaInv fuel b side price qty oid uid r hA hp
    | error e =>
      simp only [hp]
      exact hA
  | add side price qty oid uid =>
    unfold applyOp
    cases hp : addOrder b side price qty oid uid with
    | ok b2 =>
      simp only [hp]
      unfold addOrder at hp
      exact addToBook_arenaInv b side price qty oid uid b2 hA hp
    | error e =>
      simp only [hp]
      exact hA
  | cancel oid => exact cancelOrder_arenaInv b oid hA
  | settle t => exact settleMarket_arenaInv b t hA

theorem arenaInv_empty : ArenaInv {} :=
  ⟨fun i _ hn => by cases i <;> exact Option.noConfusion hn,
   fun _ _ hm => absurd hm (List.not_mem_nil _),
   fun _ _ hm => absurd hm (List.not_mem_nil _)⟩

theorem runOps_arenaInv (ops : List BookOp) : ArenaInv (runOps ops) := by
  have hgen : ∀ ops2 : List BookOp, ∀ b, ArenaInv b → ArenaInv (ops2.foldl applyOp b) := by
    intro ops2
    induction ops2 with
    | nil => exact fun _ hb => hb
    | cons x xs ih => exact fun b hb => ih (applyOp b x) (applyOp_arenaInv b x hb)
  exact hgen ops {} arenaInv_empty

theorem reachable_arenaInv (b : OrderBook) (h : Reachable b) : ArenaInv b := by
  obtain ⟨ops, hops⟩ := h
  rw [← hops]
  exact runOps_arenaInv ops

/-! ### Claim C5 -/

/-- **C5**: on every reachable book state, every trade emitted by
`process_order` prints at the maker's resting limit price: a node of the
pre-call arena carries the trade's `maker_order_id` and exactly the
trade's price; consequently a buy taker never trades above its limit
price and a sell taker never trades below it. -/
theorem C5_trade_price_is_maker_price (b : OrderBook) (hr : Reachable b)
    (fuel : Nat) (side : String) (price qty oid uid : Int)
    (b2 : OrderBook) (trades : List Trade)
    (h : processOrder fuel b side price qty oid uid = .ok (b2, trades)) :
    ∀ t ∈ trades,
      (∃ i n, b.arena.get? i = some n ∧ n.order_id = t.maker_order_id ∧
        n.price = t.price) ∧
      (side = "buy" → t.price ≤ price) ∧ (side = "sell" → price ≤ t.price) := by
  have hA := reachable_arenaInv b hr
  unfold processOrder at h
  by_cases ha : b.active
  · rw [ha] at h
    simp only [Bool.not_true, Bool.false_eq_true, if_false] at h
    by_cases h1 : side = "buy"
    · rw [if_pos h1] at h
      obtain ⟨_, _, hW⟩ := buyOuter_inv fuel b price qty oid uid [] hA
      have htr : trades = (buyOuter fuel b price qty oid uid []).2.2 := by
        by_cases hgt : (buyOuter fuel b price qty oid uid []).2.1 > 0
        · rw [if_pos hgt] at h
          cases hab : addToBook (buyOuter fuel b price qty oid uid []).1 side price
              (buyOuter fuel b price qty oid uid []).2.1 oid uid with
          | ok b2x =>
            rw [hab] at h
            change Except.ok (b2x, (buyOuter fuel b price qty oid uid []).2.2)
              = Except.ok (b2, trades) at h
            injection h with h2
            injection h2 with h2a h2b
            exact h2b.symm
          | error e =>
            rw [hab] at h
            change Except.error e = Except.ok (b2, trades) at h
            exact Except.noConfusion h
        · rw [if_neg hgt] at h
          injection h with h2
          injection h2 with h2a h2b
          exact h2b.symm
      intro t ht
      rw [htr] at ht
      rcases hW t ht with hin | ⟨hw, hle⟩
      · exact absurd hin (List.not_mem_nil t)
      · exact ⟨hw, fun _ => hle, fun hs => absurd (h1.symm.trans hs) (by decide)⟩
    · rw [if_neg h1] at h
      by_cases h2 : side = "sell"
      · rw [if_pos h2] at h
        obtain ⟨_, _, hW⟩ := sellOuter_inv fuel b price qty oid uid [] hA
        have htr : trades = (sellOuter fuel b price qty oid uid []).2.2 := by
          by_cases hgt : (sellOuter fuel b price qty oid uid []).2.1 > 0
          · rw [if_pos hgt] at h
            cases hab : addToBook (sellOuter fuel b price qty oid uid []).1 side price
                (sellOuter fuel b price qty oid uid []).2.1 oid uid with
            | ok b2x =>
              rw [hab] at h
              change Except.ok (b2x, (sellOuter fuel b price qty oid uid []).2.2)
                = Except.ok (b2, trades) at h
              injection h with h3
              injection h3 with h3a h3b
              exact h3b.symm
            | error e =>
              rw [hab] at h
              change Except.error e = Except.ok (b2, trades) at h
              exact Except.noConfusion h
          · rw [if_neg hgt] at h
            injection h with h3
            injection h3 with h3a h3b
            exact h3b.symm
        intro t ht
        rw [htr] at ht
        rcases hW t ht with hin | ⟨hw, hle⟩
        · exact absurd hin (List.not_mem_nil t)
        · exact ⟨hw, fun hb2 => absurd (h2.symm.trans hb2) (by decide), fun _ => hle⟩
      · rw [if_neg h2] at h
        have htr : trades = [] := by
          dsimp only at h
          by_cases hgt : qty > 0
          · rw [if_pos hgt] at h
            cases hab : addToBook b side price qty oid uid with
            | ok b2x =>
              rw [hab] at h
              change Except.ok (b2x, ([] : List Trade)) = Except.ok (b2, trades) at h
              injection h with h3
              injection h3 with h3a h3b
              exact h3b.symm
            | error e =>
              rw [hab] at h
              change Except.error e = Except.ok (b2, trades) at h
              exact Except.noConfusion h
          · rw [if_neg hgt] at h
            injection h with h3
            injection h3 with h3a h3b
            exact h3b.symm
        intro t ht
        rw [htr] at ht
        exact absurd ht (List.not_mem_nil t)
  · have ha2 : b.active = false := by
      cases hb : b.active
      · rfl
      · exact absurd hb ha
    rw [ha2] at h
    simp at h

/-- **C5 witness**: on the reachable book holding a resting sell 10@100
(order id 1), a buy taker with limit 120 produces exactly one trade, and
that trade prints at the resting maker's price, below the taker's limit. -/
theorem C5_trade_price_is_maker_price_witness :
    Reachable c5b ∧
    processOrder 50 c5b "buy" 120 10 2 2 = .ok (c5res.1, c5res.2) ∧
    c5res.2.length = 1 ∧
    ∀ t ∈ c5res.2,
      (∃ i n, c5b.arena.get? i = some n ∧ n.order_id = t.maker_order_id ∧
        n.price = t.price) ∧
      ("buy" = "buy" → t.price ≤ 120) ∧ ("buy" = "sell" → (120 : Int) ≤ t.price) :=
  ⟨⟨c5ops, rfl⟩, rfl, by decide,
   C5_trade_price_is_maker_price c5b ⟨c5ops, rfl⟩ 50 "buy" 120 10 2 2 c5res.1 c5res.2 rfl⟩

/-! ### Claim C2 -/

/-- C2: the claim asserts that every `Trade` record produced by
`process_order` or `settle_market` contains `buy_user_id` and
`sell_user_id` fields.  In the source, the `Trade` dataclass of
`trade.py` (a `slots=True` dataclass, so its constructor accepts
exactly the declared fields) does not declare either field, while the
constructor calls in `book.py` pass both keywords — so the very first
trade construction raises `TypeError` instead of producing a record
with those fields. -/
theorem C2_trade_user_fields_missing :
    "buy_user_id" ∈ bookTradeCallKwargs ∧ "sell_user_id" ∈ bookTradeCallKwargs ∧
    "buy_user_id" ∉ tradeDataclassFields ∧ "sell_user_id" ∉ tradeDataclassFields := by
  decide

/-! ### Claim C3 -/

/-- C3 counterexample: order id 1 rests (sell 10@100); submitting a
second order with the same id 1 does not fail with `DuplicateOrderId`
— it returns normally — and the book changes: the `_orders` entry for
id 1 now designates the new node (pointer 1) instead of the old one
(pointer 0), while the old node stays queued. -/
theorem C3_duplicate_accepted_counterexample :
    alookup c3b1.orders 1 = some 0 ∧
    processOrder 50 c3b1 "sell" 200 5 1 2 = .ok (c3b2, []) ∧
    c3b2 ≠ c3b1 ∧
    alookup c3b2.orders 1 = some 1 :=
  ⟨by decide, rfl, by decide, by decide⟩

/-- C3 (amended): `process_order` performs no duplicate-order-id check
and no `DuplicateOrderId` error exists.  Under the del-faithful model:
resubmitting the resting id 1 on an active book is accepted and returns
normally, silently repointing the `_orders` entry at the new node
(pointer 1) while the old node (pointer 0, same id, different price)
stays queued at its level; the duplicate state is never rejected
afterwards either — a buy taker that fully fills both same-id nodes in
one sweep crashes with `KeyError` at the second unguarded
`del self._orders[...]` (`book.py` line 107), not with
`DuplicateOrderId`. -/
theorem C3_no_duplicate_id_check :
    (alookup c3b1.orders 1).isSome = true ∧
    processOrderStrict 50 c3b1 "sell" 200 5 1 2 = .ok (c3b2, []) ∧
    alookup c3b2.orders 1 = some 1 ∧
    (alookup c3b2.asks 100).map OrderList.head = some (some 0) ∧
    (c3b2.arena.get? 0).map OrderNode.order_id = some 1 ∧
    (c3b2.arena.get? 1).map OrderNode.order_id = some 1 ∧
    processOrderStrict 50 c3b2 "buy" 250 20 9 9 = .error "KeyError" :=
  ⟨by decide, rfl, by decide, by decide, by decide, by decide, rfl⟩

/-! ### Claim C4 -/

/-- C4 counterexample: a zero-quantity order is not rejected with
`InvalidQuantity` (no error is raised at all): the call returns
normally with no trades and the untouched book. -/
theorem C4_no_invalid_quantity_error_counterexample :
    processOrder 50 ({} : OrderBook) "buy" 100 0 7 7 = .ok ({}, []) := rfl

/-- C4 (amended): a `process_order` call with `quantity ≤ 0` on an
active book mutates nothing, produces no trades and rests no order —
but it is not rejected with an `InvalidQuantity` error; it returns the
unchanged book and an empty trade list. -/
theorem C4_nonpositive_quantity_noop (fuel : Nat) (b : OrderBook) (side : String)
    (price quantity order_id user_id : Int) (hq : quantity ≤ 0) (h : b.active = true) :
    processOrder fuel b side price quantity order_id user_id = .ok (b, []) := by
  have hnp : ¬ quantity > 0 := not_lt.mpr hq
  unfold processOrder
  rw [h]
  simp only [Bool.not_true, Bool.false_eq_true, if_false]
  by_cases h1 : side = "buy"
  · rw [if_pos h1, buyOuter_nonpos fuel b price quantity order_id user_id [] hnp]
    simp [hnp]
  · by_cases h2 : side = "sell"
    · rw [if_neg h1, if_pos h2, sellOuter_nonpos fuel b price quantity order_id user_id [] hnp]
      simp [hnp]
    · rw [if_neg h1, if_neg h2]
      simp [hnp]

/-- C4 witness: the amended theorem applied to a concrete negative
quantity on the empty book. -/
theorem C4_nonpositive_quantity_noop_witness :
    (-3 : Int) ≤ 0 ∧ ({} : OrderBook).active = true ∧
    processOrder 9 ({} : OrderBook) "sell" 40 (-3) 9 9 = .ok ({}, []) :=
  ⟨by decide, rfl, C4_nonpositive_quantity_noop 9 {} "sell" 40 (-3) 9 9 (by decide) rfl⟩

/-! ### Claim C9 -/

/-- C9: `release_order_lock` is safe: when `price × quantity` exceeds
the locked balance the account's two balances are left completely
unchanged (no partial transfer); in every case the total
`available + locked` is preserved and a non-negative locked balance
stays non-negative. -/
theorem C9_release_order_lock_safe (m : EconomyManager) (uid : String)
    (price : ℚ) (qty : Int) :
    (price * (qty : ℚ) > (acctOf m uid).balance_locked →
       (acctOf (releaseOrderLock m uid price qty) uid).balance_available
           = (acctOf m uid).balance_available ∧
       (acctOf (releaseOrderLock m uid price qty) uid).balance_locked
           = (acctOf m uid).balance_locked) ∧
    ((acctOf (releaseOrderLock m uid price qty) uid).balance_available
        + (acctOf (releaseOrderLock m uid price qty) uid).balance_locked
      = (acctOf m uid).balance_available + (acctOf m uid).balance_locked) ∧
    (0 ≤ (acctOf m uid).balance_locked →
       0 ≤ (acctOf (releaseOrderLock m uid price qty) uid).balance_locked) := by
  cases hq : alookup m.accounts uid with
  | none =>
    have e0 : acctOf m uid = { user_id := uid } := by
      simp [acctOf, getAccount, hq]
    by_cases hc : ({ user_id := uid } : Account).balance_locked ≥ price * (qty : ℚ)
    · have e1 : acctOf (releaseOrderLock m uid price qty) uid
          = { ({ user_id := uid } : Account) with
              balance_locked :=
                ({ user_id := uid } : Account).balance_locked - price * (qty : ℚ),
              balance_available :=
                ({ user_id := uid } : Account).balance_available + price * (qty : ℚ) } := by
        simp [acctOf, getAccount, releaseOrderLock, setAccount, hq, if_pos hc,
          alookup_aset_self]
      rw [e0, e1]
      refine ⟨fun hgt => absurd (lt_of_le_of_lt hc hgt) (lt_irrefl _), by ring, fun _ => ?_⟩
      simpa using hc
    · have e1 : acctOf (releaseOrderLock m uid price qty) uid
          = { user_id := uid } := by
        simp [acctOf, getAccount, releaseOrderLock, setAccount, hq, if_neg hc,
          alookup_aset_self]
      rw [e0, e1]
      exact ⟨fun _ => ⟨rfl, rfl⟩, rfl, fun hl => hl⟩
  | some a =>
    have e0 : acctOf m uid = a := by
      simp [acctOf, getAccount, hq]
    by_cases hc : a.balance_locked ≥ price * (qty : ℚ)
    · have e1 : acctOf (releaseOrderLock m uid price qty) uid
          = { a with balance_locked := a.balance_locked - price * (qty : ℚ),
                     balance_available := a.balance_available + price * (qty : ℚ) } := by
        simp [acctOf, getAccount, releaseOrderLock, setAccount, hq, if_pos hc,
          alookup_aset_self]
      rw [e0, e1]
      refine ⟨fun hgt => absurd (lt_of_le_of_lt hc hgt) (lt_irrefl _), by ring, fun _ => ?_⟩
      simpa using hc
    · have e1 : acctOf (releaseOrderLock m uid price qty) uid = a := by
        simp [acctOf, getAccount, releaseOrderLock, setAccount, hq, if_neg hc]
      rw [e0, e1]
      exact ⟨fun _ => ⟨rfl, rfl⟩, rfl, fun hl => hl⟩

/-- C9 witness: a user with $1 locked asked to release $2: nothing
moves. -/
theorem C9_release_order_lock_safe_witness :
    (2 : ℚ) * ((1 : Int) : ℚ) > (acctOf c9M "u").balance_locked ∧
    (acctOf (releaseOrderLock c9M "u" 2 1) "u").balance_available
      = (acctOf c9M "u").balance_available :=
  ⟨by norm_num [c9M, acctOf, getAccount, alookup],
   ((C9_release_order_lock_safe c9M "u" 2 1).1
    (by norm_num [c9M, acctOf, getAccount, alookup])).1⟩

/-! ### Claim C10 -/

/-- C10: `cancel_order` chooses the queue to unlink from by price
membership alone, bid side first: whenever the cancelled order's price
has a bid-side level, the pointer surgery of `OrderList.remove` is
applied to the bid-side queue at that price — the ask-side map (which
may hold the very queue containing a cancelled sell order) is left
untouched. -/
theorem C10_cancel_targets_bid_side (b : OrderBook) (oid : Int) (ptr : Nat)
    (node : OrderNode)
    (h1 : alookup b.orders oid = some ptr) (h2 : b.arena.get? ptr = some node)
    (h3 : (alookup b.bids node.price).isSome = true) :
    (cancelOrder b oid).asks = b.asks ∧
    (cancelOrder b oid).orders = aerase b.orders oid ∧
    (cancelOrder b oid).bids =
      (if (listRemove b.arena ((alookup b.bids node.price).getD {}) ptr).2.count = 0
       then aerase b.bids node.price
       else aset b.bids node.price
         (listRemove b.arena ((alookup b.bids node.price).getD {}) ptr).2) ∧
    (listRemove b.arena ((alookup b.bids node.price).getD {}) ptr).2.count
      = ((alookup b.bids node.price).getD {}).count - 1 := by
  refine ⟨?_, ?_, ?_, (listRemove_count b.arena _ ptr node h2).1⟩ <;>
    simp only [cancelOrder, h1, h2, h3, if_true]

/-- C10 witness: bid 10@100 (id 1) and ask 5@100 (id 2) rest; the
main theorem applies to cancelling the sell order 2, whose node sits
in the ask queue while a bid level exists at 100 — and the ask side is
untouched. -/
theorem C10_cancel_targets_bid_side_witness :
    (cancelOrder c10b 2).asks = c10b.asks ∧
    (cancelOrder c10b 2).orders = aerase c10b.orders 2 :=
  have h := C10_cancel_targets_bid_side c10b 2 1
    { order_id := 2, user_id := 2, price := 100, quantity := 5, timestamp := 1 }
    (by decide) (by decide) (by decide)
  ⟨h.1, h.2.1⟩

/-! ### Claim C1 -/

/-- C1: settlement through `confirm_trade` does not conserve cash plus
position value.  Concrete run: alice and bob deposit $10 each; bob
buys 10 contracts from alice at 50¢ (bob's cash: $5, book position
+10); the oracle reports 120 ≥ 60, terminal price 1¢.  Before
settlement bob's cash plus position-at-terminal is 5 + 10·0.01 = 5.10;
the settlement trade routes bob — the long winner — as *buyer*, so
`confirm_trade` debits (clamps) his locked balance instead of paying
him: afterwards his cash is still 5, not 5.10.  The short loser alice
*gains* 0.10.  The claim's "a user long q at terminal 1 is paid by
SYSTEM" fails. -/
theorem C1_settlement_breaks_conservation :
    alookup ((alookup c1Step2.1.markets (1, 60)).getD {}).positions 2 = some 10 ∧
    c1Settled.2.map (fun t => (t.buy_user_id, t.sell_user_id, t.price, t.quantity))
      = [(2, 0, 1, 10), (0, 1, 1, 10)] ∧
    userCash c1EcoPre "bob" = 5 ∧
    userCash c1EcoPost "bob" = 5 ∧
    userCash c1EcoPost "bob" ≠ userCash c1EcoPre "bob" + (10 : ℚ) * ((1 : ℚ) / 100) ∧
    userCash c1EcoPost "alice" = userCash c1EcoPre "alice" + (10 : ℚ) * ((1 : ℚ) / 100) := by
  have ht : c1Settled.2 = [settleTradeFor 1 2 10, settleTradeFor 1 1 (-10)] := by decide
  have hpost : c1EcoPost
      = confirmTrades c1EcoPre c1ToExt "alice,60"
          [settleTradeFor 1 2 10, settleTradeFor 1 1 (-10)] := by
    unfold c1EcoPost
    rw [ht]
  have hb : userCash c1EcoPre "bob" = 5 := by simp [c1EcoPre, userCash, alookup]
  have ha : userCash c1EcoPre "alice" = 15 := by simp [c1EcoPre, userCash, alookup]
  have hb2 : userCash c1EcoPost "bob" = 5 := by
    rw [hpost]
    simp [confirmTrades, settleTradeFor, c1ToExt, c1EcoPre, confirmTrade,
      updatePosition, getAccount, setAccount, userCash, alookup, aset]
  have ha2 : userCash c1EcoPost "alice" = 151 / 10 := by
    rw [hpost]
    simp [confirmTrades, settleTradeFor, c1ToExt, c1EcoPre, confirmTrade,
      updatePosition, getAccount, setAccount, userCash, alookup, aset]
    norm_num
  refine ⟨by decide, by decide, hb, hb2, ?_, ?_⟩
  · rw [hb, hb2]; norm_num
  · rw [ha, ha2]; norm_num

/-! ### Claim C8 -/

/-- C8: `settle_markets_for_user` erases no registry entries: after
settling market (1,480) that still holds resting order 1, the global
registry still contains the order although the settled book's order
map is empty, and the auditor's registry-integrity check fails. -/
theorem C8_registry_survives_settlement :
    alookup c8Eng1.order_registry 1
        = some { market_id := (1, 480), side := "sell", price := 60,
                 quantity := 10, user_id := 1 } ∧
    (alookup c8Post.1.markets (1, 480)).map OrderBook.orders = some [] ∧
    alookup c8Post.1.order_registry 1
        = some { market_id := (1, 480), side := "sell", price := 60,
                 quantity := 10, user_id := 1 } ∧
    ¬ auditRegistryOkFor c8Post.1 (1, 480) := by
  decide

end SYF
